import Mathlib

/-!
Verification of the QuipWits game engine (`src/server/gameLogic.js`,
`src/server/promptGenerator.js`, `src/server/rooms.js`, the socket / timer
layer of the server, and `src/shared/constants.js`) against its
natural-language specification.

The JavaScript code is shallowly embedded: JS objects become structures,
`null`-able fields become `Option`, JS `Map` becomes an insertion-ordered
association list, JS `Set` becomes an insertion-ordered duplicate-free list,
and `Math.random()` draws become values of an adversarial oracle
`o : Nat → Nat` (each draw `Math.floor(Math.random() * k)` is embedded as
`o i % k`, so quantifying over `o` quantifies over every possible sequence
of random draws).
-/

namespace QuipWits

/-! ### Constants (`src/shared/constants.js`) -/

def POINTS_PER_VOTE : Nat := 100
def QUIPWIT_BONUS : Nat := 100
def LAST_LASH_FIRST : Nat := 300
def PROMPTS_PER_PLAYER : Nat := 2
def MIN_PLAYERS : Nat := 3
def MAX_PLAYERS : Nat := 8

/-! ### JS string primitives

`String.prototype.trim` and the ASCII fragment of `String.prototype.toLowerCase`
(answers are compared with `.toLowerCase().trim()` in `calculateMatchupScores`).
`Char.toLower` from core Lean is exactly the ASCII lowercase map used by JS
for basic latin letters. -/

/-- The ASCII whitespace characters removed by `String.prototype.trim`. -/
def jsIsWs (c : Char) : Bool :=
  decide (c.toNat = 32 ∨ c.toNat = 9 ∨ c.toNat = 10 ∨ c.toNat = 11 ∨
    c.toNat = 12 ∨ c.toNat = 13)

/-- Remove leading and trailing whitespace from a character list. -/
def trimChars (l : List Char) : List Char :=
  ((l.dropWhile jsIsWs).reverse.dropWhile jsIsWs).reverse

/-- Embedding of `s.trim()`. -/
def jsTrim (s : String) : String := String.mk (trimChars s.data)

/-- Embedding of `s.toLowerCase()` (ASCII fragment). -/
def jsToLower (s : String) : String := String.mk (s.data.map Char.toLower)

/-! ### JS collections

JS `Map` as insertion-ordered association list, JS `Set` as insertion-ordered
duplicate-free list, plus in-place update of the first array element matching
a predicate (the effect of mutating the object returned by `Array.find`). -/

def mapGet {κ ν : Type} [DecidableEq κ] (m : List (κ × ν)) (k : κ) : Option ν :=
  (m.find? (fun e => e.1 = k)).map (·.2)

def mapGetD {κ ν : Type} [DecidableEq κ] (m : List (κ × ν)) (k : κ) (d : ν) : ν :=
  (mapGet m k).getD d

/-- `Map.set`: JS maps have unique keys, so updating the entry holding the key
(or appending a fresh entry at the end, preserving insertion order) is the
first-match update below. -/
def mapSet {κ ν : Type} [DecidableEq κ] : List (κ × ν) → κ → ν → List (κ × ν)
  | [], k, v => [(k, v)]
  | e :: m, k, v => if e.1 = k then (k, v) :: m else e :: mapSet m k v

def mapDelete {κ ν : Type} [DecidableEq κ] (m : List (κ × ν)) (k : κ) :
    List (κ × ν) :=
  m.filter (fun e => ¬ e.1 = k)

/-- `Set.add`: append if not already present. -/
def setAdd (s : List String) (x : String) : List String :=
  if s.contains x then s else s ++ [x]

/-- Mutate (via `f`) the first element of an array satisfying `p`,
as JS code does after locating an element with `Array.prototype.find`. -/
def updateFirst {α : Type} (p : α → Bool) (f : α → α) : List α → List α
  | [] => []
  | x :: xs => if p x then f x :: xs else x :: updateFirst p f xs

/-! ### Data model (`rooms.js` room/player objects, `gameLogic.js` prompt objects) -/

structure Player where
  id : String
  name : String
  promptsAssigned : List String := []
  answersSubmitted : Nat := 0
  hasVoted : List String := []
deriving Repr, DecidableEq, Inhabited

structure Prompt where
  id : String
  text : String
  player1Id : Option String := none
  player2Id : Option String := none
  player1Answer : Option String := none
  player2Answer : Option String := none
  player1Votes : Nat := 0
  player2Votes : Nat := 0
  isJinx : Bool := false
  quipwit : Option Nat := none
deriving Repr, DecidableEq, Inhabited

structure LastLashAnswer where
  playerId : String
  answer : String
  points : Nat := 0
  votes : Nat := 0
  isWinner : Bool := false
deriving Repr, DecidableEq, Inhabited

inductive GameState
  | LOBBY | PROMPT | VOTING | SCORING | LAST_LASH | LAST_LASH_VOTING | GAME_OVER
deriving Repr, DecidableEq

/-- A game room.  `scores` is a JS `Map` whose keys are the values of
`prompt.player1Id` / player ids, hence `Option String` (`null` is a legal JS
map key).  Transport-layer fields (socket ids, timestamps) that no claim
mentions are omitted. -/
structure Room where
  state : GameState := .LOBBY
  players : List Player := []
  currentRound : Nat := 0
  prompts : List Prompt := []
  scores : List (Option String × Nat) := []
  currentMatchupIndex : Nat := 0
  lastLashAnswers : List LastLashAnswer := []
  lastLashVotes : List (String × String) := []
  timerEndTime : Option Int := none
  remainingTimeOnPause : Option Nat := none
  pausedInState : Option GameState := none
  isPaused : Bool := false
deriving Repr, DecidableEq

/-! ### Scoring a matchup (`gameLogic.js` `calculateMatchupScores`) -/

/-- The fields of the matchup result object that the specification's scoring
rules are about (display-only fields — prompt text, player names — omitted). -/
structure MatchupResult where
  isJinx : Bool
  player1Score : Nat
  player2Score : Nat
  quipwit : Option Nat
deriving Repr, DecidableEq

/-- `calculateMatchupScores(room, promptId)`.  Returns `none` when the prompt
is not found (JS returns `null`) or when an answer is still `null` (JS would
throw calling `.toLowerCase()` on it).  Otherwise returns the result object
together with the mutated room. -/
def calculateMatchupScores (room : Room) (promptId : String) :
    Option (MatchupResult × Room) :=
  match room.prompts.find? (fun p => p.id = promptId) with
  | none => none
  | some pr =>
    match pr.player1Answer, pr.player2Answer with
    | some a1, some a2 =>
      if jsTrim (jsToLower a1) = jsTrim (jsToLower a2) ∧ a1 ≠ "[No answer]" then
        some ({ isJinx := true, player1Score := 0, player2Score := 0,
                quipwit := pr.quipwit },
              { room with
                prompts := updateFirst (fun p => p.id = promptId)
                  (fun p => { p with isJinx := true }) room.prompts })
      else
        let p1Points := pr.player1Votes * POINTS_PER_VOTE
        let p2Points := pr.player2Votes * POINTS_PER_VOTE
        let total := pr.player1Votes + pr.player2Votes
        let qbb : Option Nat × Nat × Nat :=
          if 0 < total then
            if pr.player1Votes = total then (some 1, QUIPWIT_BONUS, 0)
            else if pr.player2Votes = total then (some 2, 0, QUIPWIT_BONUS)
            else (pr.quipwit, 0, 0)
          else (pr.quipwit, 0, 0)
        let currentP1 := mapGetD room.scores pr.player1Id 0
        let currentP2 := mapGetD room.scores pr.player2Id 0
        let scores1 := mapSet room.scores pr.player1Id (currentP1 + p1Points + qbb.2.1)
        let scores2 := mapSet scores1 pr.player2Id (currentP2 + p2Points + qbb.2.2)
        some ({ isJinx := false,
                player1Score := p1Points + qbb.2.1,
                player2Score := p2Points + qbb.2.2,
                quipwit := qbb.1 },
              { room with
                prompts := updateFirst (fun p => p.id = promptId)
                  (fun p => { p with quipwit := qbb.1 }) room.prompts,
                scores := scores2 })
    | _, _ => none

/-! ### Voting (`gameLogic.js` `submitVote`) -/

inductive VoteOutcome
  | success | promptNotFound | ownMatchup | alreadyVoted | invalidVote
deriving Repr, DecidableEq

/-- `if (voter) voter.hasVoted.add(promptId)` — mark the first player whose id
matches as having voted (no-op when the voter is not in `room.players`). -/
def markVoted (room : Room) (voterId promptId : String) : Room :=
  { room with
    players := updateFirst (fun p => p.id = voterId)
      (fun p => { p with hasVoted := setAdd p.hasVoted promptId }) room.players }

/-- `submitVote(room, voterId, promptId, votedFor)`: returns the outcome
(`{success: ...}` in JS) together with the possibly-mutated room. -/
def submitVote (room : Room) (voterId promptId : String) (votedFor : Int) :
    VoteOutcome × Room :=
  match room.prompts.find? (fun p => p.id = promptId) with
  | none => (.promptNotFound, room)
  | some pr =>
    if pr.player1Id = some voterId ∨ pr.player2Id = some voterId then
      (.ownMatchup, room)
    else
      let voter := room.players.find? (fun p => p.id = voterId)
      if (voter.map (fun v => v.hasVoted.contains promptId)).getD false then
        (.alreadyVoted, room)
      else if votedFor = 1 then
        let bumped := updateFirst (fun p => p.id = promptId)
          (fun p => { p with player1Votes := p.player1Votes + 1 }) room.prompts
        (.success, markVoted { room with prompts := bumped } voterId promptId)
      else if votedFor = 2 then
        let bumped := updateFirst (fun p => p.id = promptId)
          (fun p => { p with player2Votes := p.player2Votes + 1 }) room.prompts
        (.success, markVoted { room with prompts := bumped } voterId promptId)
      else
        (.invalidVote, room)

/-- `removePlayer(roomCode, playerId)` from `rooms.js`: splice the first
player with a matching id out of `room.players` and delete the score entry.
Returns the updated room and the JS boolean result. -/
def removePlayer (room : Room) (playerId : String) : Room × Bool :=
  if room.players.any (fun p => p.id = playerId) then
    ({ room with
        players := room.players.eraseP (fun p => p.id = playerId),
        scores := mapDelete room.scores (some playerId) }, true)
  else
    (room, false)

/-! ### The voting payload (`gameLogic.js` `getNextMatchup`) -/

/-- The `VOTE_MATCHUP` payload built by `getNextMatchup`. -/
structure Matchup where
  promptId : String
  promptText : String
  answer1 : Option String
  answer2 : Option String
  player1Id : Option String
  player2Id : Option String
  player1Name : String
  player2Name : String
  matchupIndex : Nat
  totalMatchups : Nat
deriving Repr, DecidableEq

/-- `player?.name || 'Unknown'` (JS `||` also replaces an empty name). -/
def jsNameOr (p : Option Player) : String :=
  match p with
  | some q => if q.name = "" then "Unknown" else q.name
  | none => "Unknown"

/-- `getNextMatchup(room)`. -/
def getNextMatchup (room : Room) : Option Matchup :=
  if room.currentMatchupIndex ≥ room.prompts.length then
    none
  else
    match room.prompts.get? room.currentMatchupIndex with
    | none => none
    | some pr =>
      let player1 := room.players.find? (fun p => some p.id = pr.player1Id)
      let player2 := room.players.find? (fun p => some p.id = pr.player2Id)
      some { promptId := pr.id
             promptText := pr.text
             answer1 := pr.player1Answer
             answer2 := pr.player2Answer
             player1Id := pr.player1Id
             player2Id := pr.player2Id
             player1Name := jsNameOr player1
             player2Name := jsNameOr player2
             matchupIndex := room.currentMatchupIndex
             totalMatchups := room.prompts.length }

/-! ### Finale scoring (`gameLogic.js` `calculateLastLashScores`) -/

/-- The `voteCounts` map: every finale author starts at 0, then each recorded
vote `(voter, votedFor)` increments the target's count. -/
def lastLashVoteCounts (room : Room) : List (String × Nat) :=
  let init := room.lastLashAnswers.foldl (fun m a => mapSet m a.playerId 0) []
  room.lastLashVotes.foldl (fun m v => mapSet m v.2 (mapGetD m v.2 0 + 1)) init

/-- `maxVotes`: largest count in `voteCounts`. -/
def lastLashMaxVotes (room : Room) : Nat :=
  (lastLashVoteCounts room).foldl (fun mx e => if mx < e.2 then e.2 else mx) 0

/-- Per-answer award: `votes × POINTS_PER_VOTE`, plus `LAST_LASH_FIRST` and
the `isWinner` flag when tied at a positive `maxVotes`. -/
def lastLashAward (voteCounts : List (String × Nat)) (maxVotes : Nat)
    (a : LastLashAnswer) : LastLashAnswer :=
  let votes := mapGetD voteCounts a.playerId 0
  let points := votes * POINTS_PER_VOTE
  if votes = maxVotes ∧ 0 < votes then
    { a with votes := votes, points := points + LAST_LASH_FIRST, isWinner := true }
  else
    { a with votes := votes, points := points }

/-- `calculateLastLashScores(room)`: award every answer, then add each
answer's points to `room.scores` (the sorted display copy is presentation
only and omitted). -/
def calculateLastLashScores (room : Room) : Room :=
  let vc := lastLashVoteCounts room
  let mx := lastLashMaxVotes room
  let answers := room.lastLashAnswers.map (lastLashAward vc mx)
  let scores := answers.foldl
    (fun m a => mapSet m (some a.playerId) (mapGetD m (some a.playerId) 0 + a.points))
    room.scores
  { room with lastLashAnswers := answers, scores := scores }

/-! ### Timer pause / resume (server socket layer: `PAUSE_GAME` /
`RESUME_GAME` handlers and `getTimerCallback`) -/

/-- The expiry actions a timer callback can perform. -/
inductive TimerAction
  | autoSubmitAndStartVoting
  | showMatchupResult (promptId : String)
  | autoSubmitLastLashAndStartVoting
  | showLastLashResults
  | noop
deriving Repr, DecidableEq

/-- JS property read `prompt[name]` on the prompt object literal created in
`assignPromptsToPlayersWithTexts` (string-valued fields); any other name
reads `undefined`. -/
def promptField (p : Prompt) (name : String) : Option String :=
  if name = "id" then some p.id
  else if name = "text" then some p.text
  else if name = "player1Id" then p.player1Id
  else if name = "player2Id" then p.player2Id
  else if name = "player1Answer" then p.player1Answer
  else if name = "player2Answer" then p.player2Answer
  else none

/-- `getTimerCallback(roomCode, state)`: the resolver used on resume.  The
`VOTING` arm reads `currentPrompt?.promptId` in the source — prompt objects
carry `id`, not `promptId`, so this is the JS `undefined` read, embedded via
`promptField`. -/
def getTimerCallback (room : Room) (state : GameState) : TimerAction :=
  match state with
  | .PROMPT => .autoSubmitAndStartVoting
  | .VOTING =>
    let currentPrompt := room.prompts.get? room.currentMatchupIndex
    let promptId := currentPrompt.bind (fun p => promptField p "promptId")
    (match promptId with
     | some pid => .showMatchupResult pid
     | none => .noop)
  | .LAST_LASH => .autoSubmitLastLashAndStartVoting
  | .LAST_LASH_VOTING => .showLastLashResults
  | _ => .noop

/-- `Math.ceil(ms / 1000)` over integer milliseconds. -/
def ceilDiv1000 (ms : Int) : Int := -((-ms).fdiv 1000)

/-- `getRemainingTime(roomCode)` = `max(0, ceil((timerEndTime − now)/1000))`,
0 when no (or a falsy) timer end is set. -/
def getRemainingTime (room : Room) (now : Int) : Nat :=
  match room.timerEndTime with
  | none => 0
  | some endT => if endT = 0 then 0 else (max 0 (ceilDiv1000 (endT - now))).toNat

/-- The `PAUSE_GAME` handler: store the remaining seconds and the state at
pause, mark paused (the scheduler cancel is an external effect). -/
def pauseGame (room : Room) (now : Int) : Room :=
  { room with
    remainingTimeOnPause := some (getRemainingTime room now),
    pausedInState := some room.state,
    isPaused := true }

/-- What the `RESUME_GAME` handler does with the timer. -/
inductive ResumeEffect
  | startTimer (duration : Nat) (callback : TimerAction)
  | fireNow (callback : TimerAction)
  | nothing
deriving Repr, DecidableEq

/-- The `RESUME_GAME` handler: clear the pause bookkeeping, then either arm a
fresh timer with the saved duration and the callback resolved from the saved
state, fire the callback immediately when the saved remaining time is 0, or
do nothing when the pause bookkeeping is absent. -/
def resumeGame (room : Room) : Room × ResumeEffect :=
  let remainingTime := room.remainingTimeOnPause
  let pausedState := room.pausedInState
  let room1 := { room with
    isPaused := false, remainingTimeOnPause := none, pausedInState := none }
  match remainingTime, pausedState with
  | some r, some st =>
    if 0 < r then (room1, .startTimer r (getTimerCallback room1 st))
    else (room1, .fireNow (getTimerCallback room1 st))
  | _, _ => (room1, .nothing)

/-! ### The voting-bound invariant (spec §8 property 3) -/

/-- Is `p` one of the two authors of `pr`? -/
def isAuthor (pr : Prompt) (p : Player) : Bool :=
  pr.player1Id == some p.id || pr.player2Id == some p.id

/-- A non-author current player who has this matchup in `hasVoted`. -/
def eligibleVoted (pr : Prompt) (p : Player) : Bool :=
  !isAuthor pr p && p.hasVoted.contains pr.id

/-- Strengthened voting invariant: each matchup's vote total is bounded by
the number of current non-author players that have marked it voted. -/
def voteInvariant (room : Room) : Prop :=
  ∀ pr ∈ room.prompts,
    pr.player1Votes + pr.player2Votes ≤ room.players.countP (eligibleVoted pr)

/-! ### Unique prompt generation (`promptGenerator.js` `generateUniquePrompts`)

The inner template+fillword draw (`generatePrompt` applied to a random
template — the template data lives in `prompts/templates.json`, outside the
engine) is modelled as an oracle `gen : Nat → String` sampled at an
increasing cursor: quantifying over `gen` quantifies over every sequence of
random template/fillword choices. -/

/-- The bounded first loop: up to `fuel` attempts, keep a draw only when it
is in neither `seen` nor the batch built so far, adding kept draws to both. -/
def genMainLoop (gen : Nat → String) (count : Nat) :
    Nat → List String → List String → Nat → List String × List String × Nat
  | 0, prompts, seen, cur => (prompts, seen, cur)
  | fuel + 1, prompts, seen, cur =>
    if prompts.length < count then
      let prompt := gen cur
      if ¬ seen.contains prompt ∧ ¬ prompts.contains prompt then
        genMainLoop gen count fuel (prompts ++ [prompt]) (seen ++ [prompt]) (cur + 1)
      else
        genMainLoop gen count fuel prompts seen (cur + 1)
    else (prompts, seen, cur)

/-- The exhaustion fallback: fill the remaining slots with raw draws, with no
uniqueness or `seen` checks and no `seen` update. -/
def genFillLoop (gen : Nat → String) : Nat → List String → Nat → List String
  | 0, prompts, _ => prompts
  | need + 1, prompts, cur => genFillLoop gen need (prompts ++ [gen cur]) (cur + 1)

/-- `generateUniquePrompts(count, usedPrompts)`: returns the prompt batch and
the final `usedPrompts` set. -/
def generateUniquePrompts (gen : Nat → String) (count : Nat)
    (seen : List String) : List String × List String :=
  let r := genMainLoop gen count (count * 10) [] seen 0
  (genFillLoop gen (count - r.1.length) r.1 r.2.2, r.2.1)

/-! ### Prompt assignment (`gameLogic.js` `assignPromptsToPlayersWithTexts`)

The greedy pairing loop.  `Math.random()` draws are an oracle `o : Nat → Nat`
consumed at an increasing cursor; the JS in-place Fisher-Yates shuffles and
the array-index draw of the one-slot-left case are embedded literally. -/

/-- The destructuring swap `[a[i], a[j]] = [a[j], a[i]]`. -/
def listSwap {α : Type} (l : List α) (i j : Nat) : List α :=
  match l.get? i, l.get? j with
  | some x, some y => (l.set i y).set j x
  | _, _ => l

/-- The Fisher-Yates loop `for (i = len−1; i > 0; i--)`; at loop index
`i + 1` the draw `Math.floor(Math.random()*(i+2))` is `o k % (i+2)`. -/
def fyLoop {α : Type} (o : Nat → Nat) : Nat → Nat → List α → List α × Nat
  | k, 0, l => (l, k)
  | k, i + 1, l => fyLoop o (k + 1) i (listSwap l (i + 1) (o k % (i + 2)))

/-- In-place shuffle of an array, returning the shuffled array and the next
oracle cursor. -/
def jsShuffle {α : Type} (o : Nat → Nat) (k : Nat) (l : List α) :
    List α × Nat :=
  fyLoop o k (l.length - 1) l

/-- `assignmentsNeeded.get(id)` (0 for a missing key, which never occurs). -/
def needOf (needs : List (String × Nat)) (pid : String) : Nat :=
  mapGetD needs pid 0

/-- `availablePlayers.sort((a, b) => need(b) − need(a))`: sort by remaining
need, most needed first. -/
def sortByNeedDesc (needs : List (String × Nat)) (l : List Player) :
    List Player :=
  List.insertionSort
    (fun a b => needOf needs b.id ≤ needOf needs a.id) l

/-- The loop state: the mutated player array, the `assignmentsNeeded` map,
the oracle cursor, and the prompts processed so far. -/
structure AssignState where
  players : List Player
  needs : List (String × Nat)
  cursor : Nat
  prompts : List Prompt
deriving Repr

/-- `player.promptsAssigned.push(prompt.id)`. -/
def pushAssigned (players : List Player) (pid promptId : String) :
    List Player :=
  updateFirst (fun p => p.id = pid)
    (fun p => { p with promptsAssigned := p.promptsAssigned ++ [promptId] })
    players

/-- The normal pairing: assign the prompt to `p1`, `p2`, decrement both
needs, record both assignments. -/
def assignNormal (st : AssignState) (pr : Prompt) (p1 p2 : Player)
    (k : Nat) : AssignState :=
  let needs1 := mapSet st.needs p1.id (needOf st.needs p1.id - 1)
  let needs2 := mapSet needs1 p2.id (needOf needs1 p2.id - 1)
  { players := pushAssigned (pushAssigned st.players p1.id pr.id) p2.id pr.id,
    needs := needs2,
    cursor := k,
    prompts := st.prompts ++
      [{ pr with player1Id := some p1.id, player2Id := some p2.id }] }

/-- The one-slot-left pairing: only `p1`'s need is decremented; `p2` accepts
a bonus assignment. -/
def assignEdge (st : AssignState) (pr : Prompt) (p1 p2 : Player)
    (k : Nat) : AssignState :=
  { players := pushAssigned (pushAssigned st.players p1.id pr.id) p2.id pr.id,
    needs := mapSet st.needs p1.id (needOf st.needs p1.id - 1),
    cursor := k,
    prompts := st.prompts ++
      [{ pr with player1Id := some p1.id, player2Id := some p2.id }] }

/-- One iteration of the `for (const prompt of prompts)` loop. -/
def assignStep (o : Nat → Nat) (st : AssignState) (pr : Prompt) :
    AssignState :=
  let avail := sortByNeedDesc st.needs
    (st.players.filter (fun p => 0 < needOf st.needs p.id))
  match avail with
  | [] => { st with prompts := st.prompts ++ [pr] }
  | p0 :: rest =>
    if 2 ≤ (p0 :: rest).length then
      let maxNeed := needOf st.needs p0.id
      let maxGroup := (p0 :: rest).filter
        (fun p => needOf st.needs p.id = maxNeed)
      let sh := jsShuffle o st.cursor maxGroup
      match sh.1 with
      | g0 :: g1 :: _ => assignNormal st pr g0 g1 sh.2
      | [g0] =>
        let others := (p0 :: rest).filter (fun p => ¬ p.id = g0.id)
        let sh2 := jsShuffle o sh.2 others
        (match sh2.1 with
         | q :: _ => assignNormal st pr g0 q sh2.2
         | [] => { st with prompts := st.prompts ++ [pr] })
      | [] => { st with prompts := st.prompts ++ [pr] }
    else
      let others := st.players.filter (fun p => ¬ p.id = p0.id)
      let idx := o st.cursor % others.length
      (match others.get? idx with
       | some p2 => assignEdge st pr p0 p2 (st.cursor + 1)
       | none => { st with prompts := st.prompts ++ [pr] })

/-- The per-player reset (`promptsAssigned = []`, `answersSubmitted = 0`,
`hasVoted.clear()`) done at the top of the assignment loop. -/
def resetPlayer (p : Player) : Player :=
  { p with promptsAssigned := [], answersSubmitted := 0, hasVoted := [] }

/-- The prompt objects built from the texts:
`id = "r" + room.currentRound + "_p" + index`. -/
def mkPrompts (room : Room) (promptTexts : List String) : List Prompt :=
  promptTexts.mapIdx (fun index text =>
    { id := "r" ++ toString room.currentRound ++ "_p" ++ toString index,
      text := text : Prompt })

/-- The loop entry state: reset players, `assignmentsNeeded` seeded with
`promptsPerPlayer` per player, no prompts processed. -/
def initAssignState (room : Room) (promptsPerPlayer : Nat) : AssignState :=
  { players := room.players.map resetPlayer,
    needs := (room.players.map resetPlayer).foldl
      (fun m p => mapSet m p.id promptsPerPlayer) [],
    cursor := 0,
    prompts := [] }

/-- `assignPromptsToPlayersWithTexts(room, promptTexts, players, playerCount,
promptsPerPlayer)`: build the prompt objects, reset the players, seed the
needs map, run the pairing loop. -/
def assignPromptsToPlayersWithTexts (o : Nat → Nat) (room : Room)
    (promptTexts : List String) (promptsPerPlayer : Nat) : Room :=
  let final := (mkPrompts room promptTexts).foldl (assignStep o)
    (initAssignState room promptsPerPlayer)
  { room with
    players := final.players,
    prompts := final.prompts,
    currentMatchupIndex := 0 }

/-- The remaining need of the player with id `i`. -/
def NEEDf (st : AssignState) (i : String) : Nat := needOf st.needs i

/-- The number of prompts assigned so far to the player with id `i`. -/
def ASSIGNEDf (st : AssignState) (i : String) : Nat :=
  ((st.players.find? (fun p => p.id = i)).map
    (fun p => p.promptsAssigned.length)).getD 0

/-- Total remaining need over the roster. -/
def sumNeed (st : AssignState) : Nat :=
  ((st.players.map Player.id).map (NEEDf st)).sum

/-- Total number of assignments recorded over the roster. -/
def sumAssigned (st : AssignState) : Nat :=
  ((st.players.map Player.id).map (ASSIGNEDf st)).sum

/-! ### Concrete fixtures used by witnesses -/

/-- A matchup whose two answers agree up to case and surrounding blanks. -/
def jinxPrompt : Prompt :=
  { id := "r1_p0", text := "t", player1Id := some "A", player2Id := some "B",
    player1Answer := some " Hello ", player2Answer := some "hello" }

def jinxRoom : Room := { prompts := [jinxPrompt] }

/-- Scenario S2 of the spec: answers `"a"`, `"b"`, two voters both choosing
answer 1. -/
def s2Prompt : Prompt :=
  { id := "r1_p0", text := "t", player1Id := some "A", player2Id := some "B",
    player1Answer := some "a", player2Answer := some "b",
    player1Votes := 2, player2Votes := 0 }

def s2Room : Room :=
  { prompts := [s2Prompt],
    scores := [(some "A", 0), (some "B", 0)] }

/-- A four-player voting-phase room: `A`,`B` author the matchup, `C` has
already voted on it, `D` has not. -/
def votePrompt : Prompt :=
  { id := "r1_p0", text := "t", player1Id := some "A", player2Id := some "B",
    player1Answer := some "a", player2Answer := some "b" }

def voteRoom : Room :=
  { players := [{ id := "A", name := "Alice" }, { id := "B", name := "Bob" },
                { id := "C", name := "Cara", hasVoted := ["r1_p0"] },
                { id := "D", name := "Dave" }],
    prompts := [votePrompt],
    scores := [(some "A", 0), (some "B", 0), (some "C", 0), (some "D", 0)] }

/-- Scenario S6 of the spec: four finale answers, three voters all vote
for `A`. -/
def s6Room : Room :=
  { players := [{ id := "A", name := "Alice" }, { id := "B", name := "Bob" },
                { id := "C", name := "Cara" }, { id := "D", name := "Dave" }],
    lastLashAnswers := [{ playerId := "A", answer := "a" },
                        { playerId := "B", answer := "b" },
                        { playerId := "C", answer := "c" },
                        { playerId := "D", answer := "d" }],
    lastLashVotes := [("B", "A"), ("C", "A"), ("D", "A")],
    scores := [(some "A", 0), (some "B", 0), (some "C", 0), (some "D", 0)] }

/-- A generator oracle whose draws are pairwise distinct
(`"", "a", "aa", ...`). -/
def genW : Nat → String := fun n => String.mk (List.replicate n 'a')

/-- Four players, nobody voted yet: the stage for voting twice and then
kicking a voter. -/
def kickRoom : Room :=
  { players := [{ id := "A", name := "Alice" }, { id := "B", name := "Bob" },
                { id := "C", name := "Cara" }, { id := "D", name := "Dave" }],
    prompts := [votePrompt],
    scores := [(some "A", 0), (some "B", 0), (some "C", 0), (some "D", 0)] }

/-- A room paused in the middle of voting on its first matchup with 12
seconds left on the clock. -/
def pausedVotingRoom : Room :=
  { state := .VOTING,
    players := [{ id := "A", name := "Alice" }, { id := "B", name := "Bob" },
                { id := "C", name := "Cara" }],
    prompts := [votePrompt],
    currentMatchupIndex := 0,
    remainingTimeOnPause := some 12,
    pausedInState := some .VOTING,
    isPaused := true }

/-- Two voting-phase rooms that differ only in which author wrote which
answer: in the first, `A` wrote `"x"`; in the second, `A` wrote `"y"`. -/
def revealRoomA : Room :=
  { state := .VOTING,
    players := [{ id := "A", name := "Alice" }, { id := "B", name := "Bob" },
                { id := "C", name := "Cara" }],
    prompts := [{ id := "r1_p0", text := "t", player1Id := some "A",
                  player2Id := some "B", player1Answer := some "x",
                  player2Answer := some "y" }],
    currentMatchupIndex := 0 }

def revealRoomB : Room :=
  { state := .VOTING,
    players := [{ id := "A", name := "Alice" }, { id := "B", name := "Bob" },
                { id := "C", name := "Cara" }],
    prompts := [{ id := "r1_p0", text := "t", player1Id := some "A",
                  player2Id := some "B", player1Answer := some "y",
                  player2Answer := some "x" }],
    currentMatchupIndex := 0 }

/-- A fresh three-player lobby about to receive its round-1 prompts. -/
def c3Room : Room :=
  { players := [{ id := "A", name := "Alice" }, { id := "B", name := "Bob" },
                { id := "C", name := "Cara" }],
    currentRound := 1 }

/-- `⌈3 · 2 / 2⌉ = 3` prompt texts for `c3Room`. -/
def c3Texts : List String := ["t1", "t2", "t3"]

/-! ### String lemmas: `lower` and `trim` commute -/

theorem toNat_charOfNat_valid (n : Nat) (h : n.isValidChar) :
    (Char.ofNat n).toNat = n := by
  unfold Char.ofNat
  rw [dif_pos h]
  rfl

theorem jsIsWs_toLower (c : Char) : jsIsWs c.toLower = jsIsWs c := by
  unfold Char.toLower
  by_cases h : c.toNat ≥ 65 ∧ c.toNat ≤ 90
  · rw [if_pos h]
    have hval : (c.toNat + 32).isValidChar := by
      left
      have := h.2
      omega
    simp only [jsIsWs, toNat_charOfNat_valid _ hval, decide_eq_decide]
    have h1 := h.1
    have h2 := h.2
    omega
  · rw [if_neg h]

theorem jsIsWs_comp_toLower : (fun c => jsIsWs (Char.toLower c)) = jsIsWs := by
  funext c
  exact jsIsWs_toLower c

/-- `lower` and `trim` commute, so the spec's `lower(trim(·))` normalisation
agrees with the code's `.toLowerCase().trim()`. -/
theorem jsToLower_jsTrim (s : String) :
    jsToLower (jsTrim s) = jsTrim (jsToLower s) := by
  unfold jsToLower jsTrim trimChars
  congr 1
  simp only [List.dropWhile_map, ← List.map_reverse, Function.comp_def,
    jsIsWs_comp_toLower]

/-! ### C1 — Jinx rule -/

/-- C1: when both answers of a matchup are set, normalise to the same string
under `lower(trim(·))`, and the first answer is not the `"[No answer]"`
sentinel, `calculateMatchupScores` marks the prompt `isJinx = true`, reports
`player1Score = 0` and `player2Score = 0`, and leaves `room.scores` unchanged
for both authors. -/
theorem calculateMatchupScores_jinx (room : Room) (promptId : String)
    (pr : Prompt) (a1 a2 : String)
    (hfind : room.prompts.find? (fun p => p.id = promptId) = some pr)
    (h1 : pr.player1Answer = some a1) (h2 : pr.player2Answer = some a2)
    (heq : jsToLower (jsTrim a1) = jsToLower (jsTrim a2))
    (hne : a1 ≠ "[No answer]") :
    ∃ res room', calculateMatchupScores room promptId = some (res, room') ∧
      res.isJinx = true ∧ res.player1Score = 0 ∧ res.player2Score = 0 ∧
      room'.scores = room.scores ∧
      room'.prompts = updateFirst (fun p => p.id = promptId)
        (fun p => { p with isJinx := true }) room.prompts := by
  have heq' : jsTrim (jsToLower a1) = jsTrim (jsToLower a2) := by
    rw [← jsToLower_jsTrim, ← jsToLower_jsTrim]
    exact heq
  refine ⟨{ isJinx := true, player1Score := 0, player2Score := 0,
            quipwit := pr.quipwit },
    { room with
        prompts := updateFirst (fun p => p.id = promptId)
          (fun p => { p with isJinx := true }) room.prompts },
    ?_, rfl, rfl, rfl, rfl, rfl⟩
  simp only [calculateMatchupScores, hfind, h1, h2]
  rw [if_pos ⟨heq', hne⟩]

/-- Witness for C1 at a concrete jinxed matchup. -/
theorem calculateMatchupScores_jinx_witness :
    ∃ res room',
      calculateMatchupScores jinxRoom "r1_p0" = some (res, room') ∧
      res.isJinx = true ∧ res.player1Score = 0 ∧ res.player2Score = 0 ∧
      room'.scores = jinxRoom.scores ∧
      room'.prompts = updateFirst (fun p => p.id = "r1_p0")
        (fun p => { p with isJinx := true }) jinxRoom.prompts :=
  calculateMatchupScores_jinx jinxRoom "r1_p0" jinxPrompt " Hello " "hello"
    (by decide) rfl rfl (by decide) (by decide)

/-! ### C2 — per-vote points and the QuipWit bonus -/

/-- C2: on a non-Jinx matchup, each author's matchup score is
`votesReceived × POINTS_PER_VOTE`, the side holding all of a positive number
of votes additionally gets `QUIPWIT_BONUS` and `quipwit` records that side,
and both earnings are added to the authors' entries in `room.scores`. -/
theorem calculateMatchupScores_nonjinx (room : Room) (promptId : String)
    (pr : Prompt) (a1 a2 : String)
    (hfind : room.prompts.find? (fun p => p.id = promptId) = some pr)
    (h1 : pr.player1Answer = some a1) (h2 : pr.player2Answer = some a2)
    (hnj : ¬ (jsTrim (jsToLower a1) = jsTrim (jsToLower a2) ∧
              a1 ≠ "[No answer]")) :
    ∃ res room', calculateMatchupScores room promptId = some (res, room') ∧
      res.isJinx = false ∧
      res.player1Score = pr.player1Votes * POINTS_PER_VOTE +
        (if 0 < pr.player1Votes + pr.player2Votes ∧ pr.player2Votes = 0 then
          QUIPWIT_BONUS else 0) ∧
      res.player2Score = pr.player2Votes * POINTS_PER_VOTE +
        (if 0 < pr.player1Votes + pr.player2Votes ∧ pr.player1Votes = 0 then
          QUIPWIT_BONUS else 0) ∧
      res.quipwit =
        (if 0 < pr.player1Votes + pr.player2Votes ∧ pr.player2Votes = 0 then
          some 1
        else if 0 < pr.player1Votes + pr.player2Votes ∧ pr.player1Votes = 0 then
          some 2
        else pr.quipwit) ∧
      room'.scores =
        mapSet (mapSet room.scores pr.player1Id
            (mapGetD room.scores pr.player1Id 0 + res.player1Score))
          pr.player2Id
          (mapGetD room.scores pr.player2Id 0 + res.player2Score) ∧
      room'.prompts = updateFirst (fun p => p.id = promptId)
        (fun p => { p with quipwit := res.quipwit }) room.prompts := by
  simp only [calculateMatchupScores, hfind, h1, h2, if_neg hnj]
  refine ⟨_, _, rfl, rfl, ?_, ?_, ?_, ?_, ?_⟩ <;>
    (split_ifs <;> first | rfl | omega)

/-- Witness for C2: scenario S2 — answers `"a"`, `"b"`, two votes for
answer 1 give scores 300 / 0 and a QuipWit for side 1. -/
theorem calculateMatchupScores_nonjinx_witness :
    (∃ res room', calculateMatchupScores s2Room "r1_p0" = some (res, room') ∧
      res.isJinx = false ∧
      res.player1Score = s2Prompt.player1Votes * POINTS_PER_VOTE +
        (if 0 < s2Prompt.player1Votes + s2Prompt.player2Votes ∧
            s2Prompt.player2Votes = 0 then QUIPWIT_BONUS else 0) ∧
      res.player2Score = s2Prompt.player2Votes * POINTS_PER_VOTE +
        (if 0 < s2Prompt.player1Votes + s2Prompt.player2Votes ∧
            s2Prompt.player1Votes = 0 then QUIPWIT_BONUS else 0) ∧
      res.quipwit =
        (if 0 < s2Prompt.player1Votes + s2Prompt.player2Votes ∧
            s2Prompt.player2Votes = 0 then some 1
        else if 0 < s2Prompt.player1Votes + s2Prompt.player2Votes ∧
            s2Prompt.player1Votes = 0 then some 2
        else s2Prompt.quipwit) ∧
      room'.scores =
        mapSet (mapSet s2Room.scores s2Prompt.player1Id
            (mapGetD s2Room.scores s2Prompt.player1Id 0 + res.player1Score))
          s2Prompt.player2Id
          (mapGetD s2Room.scores s2Prompt.player2Id 0 + res.player2Score) ∧
      room'.prompts = updateFirst (fun p => p.id = "r1_p0")
        (fun p => { p with quipwit := res.quipwit }) s2Room.prompts) ∧
    (calculateMatchupScores s2Room "r1_p0").map Prod.fst =
      some { isJinx := false, player1Score := 300, player2Score := 0,
             quipwit := some 1 } :=
  ⟨calculateMatchupScores_nonjinx s2Room "r1_p0" s2Prompt "a" "b"
      (by decide) rfl rfl (by decide),
   by decide⟩

/-! ### C4 — submitVote error handling -/

/-- C4: `submitVote` fails with `PromptNotFound` / `OwnMatchup` /
`AlreadyVoted` / `InvalidVote` exactly per the guard chain of the source, the
room is returned unchanged on every failure (hence an identical resubmission
reproduces the same error), and on success exactly the chosen side's counter
is incremented and the prompt id is added to the voter's `hasVoted` set. -/
theorem submitVote_spec (room : Room) (voterId promptId : String) (c : Int) :
    (room.prompts.find? (fun p => p.id = promptId) = none →
      submitVote room voterId promptId c = (.promptNotFound, room)) ∧
    (∀ pr, room.prompts.find? (fun p => p.id = promptId) = some pr →
      (pr.player1Id = some voterId ∨ pr.player2Id = some voterId) →
      submitVote room voterId promptId c = (.ownMatchup, room)) ∧
    (∀ pr v, room.prompts.find? (fun p => p.id = promptId) = some pr →
      ¬ (pr.player1Id = some voterId ∨ pr.player2Id = some voterId) →
      room.players.find? (fun p => p.id = voterId) = some v →
      v.hasVoted.contains promptId = true →
      submitVote room voterId promptId c = (.alreadyVoted, room)) ∧
    (∀ pr, room.prompts.find? (fun p => p.id = promptId) = some pr →
      ¬ (pr.player1Id = some voterId ∨ pr.player2Id = some voterId) →
      ((room.players.find? (fun p => p.id = voterId)).map
        (fun v => v.hasVoted.contains promptId)).getD false = false →
      c ≠ 1 → c ≠ 2 →
      submitVote room voterId promptId c = (.invalidVote, room)) ∧
    (∀ pr, room.prompts.find? (fun p => p.id = promptId) = some pr →
      ¬ (pr.player1Id = some voterId ∨ pr.player2Id = some voterId) →
      ((room.players.find? (fun p => p.id = voterId)).map
        (fun v => v.hasVoted.contains promptId)).getD false = false →
      (c = 1 ∨ c = 2) →
      (submitVote room voterId promptId c).1 = .success ∧
      (submitVote room voterId promptId c).2.prompts =
        updateFirst (fun p => p.id = promptId)
          (fun p => if c = 1 then { p with player1Votes := p.player1Votes + 1 }
                    else { p with player2Votes := p.player2Votes + 1 })
          room.prompts ∧
      (submitVote room voterId promptId c).2.players =
        updateFirst (fun p => p.id = voterId)
          (fun p => { p with hasVoted := setAdd p.hasVoted promptId })
          room.players ∧
      (submitVote room voterId promptId c).2.scores = room.scores) := by
  refine ⟨?_, ?_, ?_, ?_, ?_⟩
  · intro hnf
    simp only [submitVote, hnf]
  · intro pr hfind hown
    simp only [submitVote, hfind, if_pos hown]
  · intro pr v hfind hown hv hvoted
    have hmem : promptId ∈ v.hasVoted := by simpa using hvoted
    simp only [submitVote, hfind, if_neg hown, hv]
    simp [hmem]
  · intro pr hfind hown hnv hc1 hc2
    simp only [submitVote, hfind, if_neg hown, hnv]
    simp [hc1, hc2]
  · intro pr hfind hown hnv hc
    rcases hc with hc | hc <;> subst hc <;>
      simp only [submitVote, hfind, if_neg hown, hnv] <;>
      simp [markVoted]

/-- Witness for C4: each branch exercised on the concrete four-player room. -/
theorem submitVote_spec_witness :
    submitVote voteRoom "D" "missing" 1 = (.promptNotFound, voteRoom) ∧
    submitVote voteRoom "A" "r1_p0" 1 = (.ownMatchup, voteRoom) ∧
    submitVote voteRoom "C" "r1_p0" 1 = (.alreadyVoted, voteRoom) ∧
    submitVote voteRoom "D" "r1_p0" 7 = (.invalidVote, voteRoom) ∧
    (submitVote voteRoom "D" "r1_p0" 1).1 = .success ∧
    (submitVote voteRoom "D" "r1_p0" 1).2.prompts =
      updateFirst (fun p => p.id = "r1_p0")
        (fun p => if (1 : Int) = 1 then
            { p with player1Votes := p.player1Votes + 1 }
          else { p with player2Votes := p.player2Votes + 1 })
        voteRoom.prompts ∧
    (submitVote voteRoom "D" "r1_p0" 1).2.players =
      updateFirst (fun p => p.id = "D")
        (fun p => { p with hasVoted := setAdd p.hasVoted "r1_p0" })
        voteRoom.players ∧
    (submitVote voteRoom "D" "r1_p0" 1).2.scores = voteRoom.scores := by
  refine ⟨?_, ?_, ?_, ?_, ?_, ?_, ?_, ?_⟩
  · exact (submitVote_spec voteRoom "D" "missing" 1).1 (by decide)
  · exact (submitVote_spec voteRoom "A" "r1_p0" 1).2.1 votePrompt (by decide)
      (by decide)
  · exact (submitVote_spec voteRoom "C" "r1_p0" 1).2.2.1 votePrompt
      { id := "C", name := "Cara", hasVoted := ["r1_p0"] }
      (by decide) (by decide) (by decide) (by decide)
  · exact (submitVote_spec voteRoom "D" "r1_p0" 7).2.2.2.1 votePrompt
      (by decide) (by decide) (by decide) (by decide) (by decide)
  all_goals
    have h := (submitVote_spec voteRoom "D" "r1_p0" 1).2.2.2.2 votePrompt
      (by decide) (by decide) (by decide) (Or.inl rfl)
    first
      | exact h.1
      | exact h.2.1
      | exact h.2.2.1
      | exact h.2.2.2

/-! ### C10 — votes from ids absent from `room.players` are never deduplicated -/

theorem updateFirst_of_find?_eq_none {α : Type} (p : α → Bool) (f : α → α)
    (l : List α) (h : l.find? p = none) : updateFirst p f l = l := by
  induction l with
  | nil => rfl
  | cons a l ih =>
    by_cases hpa : p a = true
    · rw [List.find?_cons_of_pos _ hpa] at h
      cases h
    · rw [List.find?_cons_of_neg _ (by simpa using hpa)] at h
      simp only [updateFirst]
      rw [if_neg hpa, ih h]

theorem find?_updateFirst_of_find?_eq_some {α : Type} (p : α → Bool)
    (f : α → α) (l : List α) (x : α) (h : l.find? p = some x)
    (hfx : p (f x) = true) :
    (updateFirst p f l).find? p = some (f x) := by
  induction l with
  | nil => cases h
  | cons a l ih =>
    by_cases hpa : p a = true
    · rw [List.find?_cons_of_pos _ hpa] at h
      injection h with h
      subst h
      simp only [updateFirst]
      rw [if_pos hpa]
      exact List.find?_cons_of_pos _ hfx
    · rw [List.find?_cons_of_neg _ (by simpa using hpa)] at h
      simp only [updateFirst]
      rw [if_neg hpa, List.find?_cons_of_neg _ (by simpa using hpa)]
      exact ih h

/-- One ghost-voter vote: when the voter id is absent from `room.players` and
is not an author, `submitVote` succeeds, leaves the roster unchanged, and
bumps the vote total of the targeted prompt. -/
theorem submitVote_ghost_step (room : Room) (voterId promptId : String)
    (c : Int) (pr : Prompt)
    (hf : room.prompts.find? (fun p => p.id = promptId) = some pr)
    (hown : ¬ (pr.player1Id = some voterId ∨ pr.player2Id = some voterId))
    (hgh : room.players.find? (fun p => p.id = voterId) = none)
    (hc : c = 1 ∨ c = 2) :
    (submitVote room voterId promptId c).1 = .success ∧
    (submitVote room voterId promptId c).2.players = room.players ∧
    ∃ pr1, (submitVote room voterId promptId c).2.prompts.find?
        (fun p => p.id = promptId) = some pr1 ∧
      pr1.player1Id = pr.player1Id ∧ pr1.player2Id = pr.player2Id ∧
      pr1.player1Votes + pr1.player2Votes =
        pr.player1Votes + pr.player2Votes + 1 := by
  have hfx1 : (fun p : Prompt => decide (p.id = promptId))
      ({ pr with player1Votes := pr.player1Votes + 1 }) = true := by
    have := List.find?_some hf
    simpa using this
  have hfx2 : (fun p : Prompt => decide (p.id = promptId))
      ({ pr with player2Votes := pr.player2Votes + 1 }) = true := by
    have := List.find?_some hf
    simpa using this
  rcases hc with hc | hc <;> subst hc <;>
    simp only [submitVote, hf, if_neg hown, hgh, Option.map_none', Option.getD_none,
      Bool.false_eq_true, if_false, markVoted] <;>
    norm_num <;>
    refine ⟨by rw [updateFirst_of_find?_eq_none _ _ _ hgh], ?_⟩
  · exact ⟨{ pr with player1Votes := pr.player1Votes + 1 },
      find?_updateFirst_of_find?_eq_some _ _ _ _ hf hfx1, rfl, rfl,
      by
        show pr.player1Votes + 1 + pr.player2Votes =
          pr.player1Votes + pr.player2Votes + 1
        omega⟩
  · exact ⟨{ pr with player2Votes := pr.player2Votes + 1 },
      find?_updateFirst_of_find?_eq_some _ _ _ _ hf hfx2, rfl, rfl,
      by
        show pr.player1Votes + (pr.player2Votes + 1) =
          pr.player1Votes + pr.player2Votes + 1
        omega⟩

/-- C10: a voter id that does not occur in `room.players` and is not an author
of the targeted prompt can vote successfully any number of times on the same
prompt — the `AlreadyVoted` guard never fires for ids outside the roster, so
such votes are never deduplicated. -/
theorem submitVote_absent_voter_no_dedup (room : Room)
    (voterId promptId : String) (c : Int) (pr : Prompt)
    (hghost : room.players.find? (fun p => p.id = voterId) = none)
    (hfind : room.prompts.find? (fun p => p.id = promptId) = some pr)
    (hown : ¬ (pr.player1Id = some voterId ∨ pr.player2Id = some voterId))
    (hc : c = 1 ∨ c = 2) :
    ∀ n : Nat,
      (submitVote ((fun r => (submitVote r voterId promptId c).2)^[n] room)
          voterId promptId c).1 = .success ∧
      ((fun r => (submitVote r voterId promptId c).2)^[n] room).players =
        room.players ∧
      ∃ prn prn1,
        ((fun r => (submitVote r voterId promptId c).2)^[n] room).prompts.find?
          (fun p => p.id = promptId) = some prn ∧
        ((fun r => (submitVote r voterId promptId c).2)^[n+1] room).prompts.find?
          (fun p => p.id = promptId) = some prn1 ∧
        prn1.player1Votes + prn1.player2Votes =
          prn.player1Votes + prn.player2Votes + 1 := by
  have key : ∀ n : Nat, ∃ prn,
      ((fun r => (submitVote r voterId promptId c).2)^[n] room).prompts.find?
        (fun p => p.id = promptId) = some prn ∧
      prn.player1Id = pr.player1Id ∧ prn.player2Id = pr.player2Id ∧
      ((fun r => (submitVote r voterId promptId c).2)^[n] room).players =
        room.players := by
    intro n
    induction n with
    | zero => exact ⟨pr, hfind, rfl, rfl, rfl⟩
    | succ k ih =>
      obtain ⟨prn, hf, h1, h2, hp⟩ := ih
      have hgh : ((fun r => (submitVote r voterId promptId c).2)^[k]
          room).players.find? (fun p => p.id = voterId) = none := by
        rw [hp]
        exact hghost
      have hown' : ¬ (prn.player1Id = some voterId ∨
          prn.player2Id = some voterId) := by
        rw [h1, h2]
        exact hown
      have hstep := submitVote_ghost_step _ voterId promptId c prn hf hown' hgh hc
      obtain ⟨pr1, hf1, he1, he2, _⟩ := hstep.2.2
      rw [Function.iterate_succ_apply']
      exact ⟨pr1, hf1, he1.trans h1, he2.trans h2, hstep.2.1.trans hp⟩
  intro n
  obtain ⟨prn, hf, h1, h2, hp⟩ := key n
  have hgh : ((fun r => (submitVote r voterId promptId c).2)^[n]
      room).players.find? (fun p => p.id = voterId) = none := by
    rw [hp]
    exact hghost
  have hown' : ¬ (prn.player1Id = some voterId ∨ prn.player2Id = some voterId) := by
    rw [h1, h2]
    exact hown
  have hstep := submitVote_ghost_step _ voterId promptId c prn hf hown' hgh hc
  obtain ⟨pr1, hf1, _, _, hv⟩ := hstep.2.2
  refine ⟨hstep.1, hp, prn, pr1, hf, ?_, hv⟩
  rw [Function.iterate_succ_apply']
  exact hf1

/-- Witness for C10: the unknown id `"Z"` votes twice in a row on the
concrete four-player room and both votes succeed. -/
theorem submitVote_absent_voter_no_dedup_witness :
    (submitVote ((fun r => (submitVote r "Z" "r1_p0" 1).2)^[1] voteRoom)
        "Z" "r1_p0" 1).1 = .success ∧
    ((fun r => (submitVote r "Z" "r1_p0" 1).2)^[1] voteRoom).players =
      voteRoom.players ∧
    ∃ prn prn1,
      ((fun r => (submitVote r "Z" "r1_p0" 1).2)^[1] voteRoom).prompts.find?
        (fun p => p.id = "r1_p0") = some prn ∧
      ((fun r => (submitVote r "Z" "r1_p0" 1).2)^[1+1] voteRoom).prompts.find?
        (fun p => p.id = "r1_p0") = some prn1 ∧
      prn1.player1Votes + prn1.player2Votes =
        prn.player1Votes + prn.player2Votes + 1 :=
  submitVote_absent_voter_no_dedup voteRoom "Z" "r1_p0" 1 votePrompt
    (by decide) (by decide) (by decide) (Or.inl rfl) 1

/-! ### Map lemmas -/

theorem mapGet_mapSet_self {κ ν : Type} [DecidableEq κ] (m : List (κ × ν))
    (k : κ) (v : ν) : mapGet (mapSet m k v) k = some v := by
  induction m with
  | nil => simp [mapSet, mapGet]
  | cons e m ih =>
    by_cases he : e.1 = k
    · simp [mapSet, he, mapGet]
    · simp only [mapSet, if_neg he, mapGet] at ih ⊢
      rw [List.find?_cons_of_neg _ (by simpa using he)]
      exact ih

theorem mapGet_mapSet_ne {κ ν : Type} [DecidableEq κ] (m : List (κ × ν))
    (k k2 : κ) (v : ν) (hne : k2 ≠ k) :
    mapGet (mapSet m k v) k2 = mapGet m k2 := by
  induction m with
  | nil =>
    simp only [mapSet, mapGet]
    rw [List.find?_cons_of_neg _ (by simpa using fun h => hne h.symm)]
  | cons e m ih =>
    by_cases he : e.1 = k
    · simp only [mapSet, if_pos he, mapGet]
      rw [List.find?_cons_of_neg _ (by simpa using fun h => hne h.symm),
        List.find?_cons_of_neg _
          (by simpa using fun h : e.1 = k2 => hne (h.symm.trans he))]
    · simp only [mapSet, if_neg he, mapGet] at ih ⊢
      by_cases he2 : e.1 = k2
      · rw [List.find?_cons_of_pos _ (by simpa using he2),
          List.find?_cons_of_pos _ (by simpa using he2)]
      · rw [List.find?_cons_of_neg _ (by simpa using he2),
          List.find?_cons_of_neg _ (by simpa using he2)]
        exact ih

theorem mem_mapSet {κ ν : Type} [DecidableEq κ] (m : List (κ × ν)) (k : κ)
    (v : ν) : ∀ e ∈ mapSet m k v, e ∈ m ∨ e = (k, v) := by
  induction m with
  | nil => simp [mapSet]
  | cons b m ih =>
    intro e he
    by_cases hb : b.1 = k
    · rw [mapSet, if_pos hb] at he
      rcases List.mem_cons.mp he with h | h
      · right; exact h
      · left; exact List.mem_cons_of_mem _ h
    · rw [mapSet, if_neg hb] at he
      rcases List.mem_cons.mp he with h | h
      · left; rw [h]; exact List.mem_cons_self _ _
      · rcases ih e h with h2 | h2
        · left; exact List.mem_cons_of_mem _ h2
        · right; exact h2

theorem mapGetD_eq_zero_of_all_zero (m : List (String × Nat))
    (h : ∀ e ∈ m, e.2 = 0) (k : String) : mapGetD m k 0 = 0 := by
  unfold mapGetD mapGet
  cases hf : m.find? (fun e => e.1 = k) with
  | none => rfl
  | some e =>
    have hmem : e ∈ m := List.mem_of_find?_eq_some hf
    simp [h e hmem]

/-! ### C7 — finale scoring lemmas -/

theorem lastLashInit_all_zero (answers : List LastLashAnswer) :
    ∀ m : List (String × Nat), (∀ e ∈ m, e.2 = 0) →
      ∀ e ∈ answers.foldl (fun m a => mapSet m a.playerId 0) m, e.2 = 0 := by
  induction answers with
  | nil => exact fun m hm e he => hm e he
  | cons a answers ih =>
    intro m hm e he
    refine ih _ (fun e2 he2 => ?_) e he
    rcases mem_mapSet _ _ _ e2 he2 with h | h
    · exact hm e2 h
    · rw [h]

theorem voteFold_getD (votes : List (String × String)) :
    ∀ (m : List (String × Nat)) (k : String),
      mapGetD (votes.foldl (fun m v => mapSet m v.2 (mapGetD m v.2 0 + 1)) m) k 0
        = mapGetD m k 0 + votes.countP (fun v => v.2 = k) := by
  induction votes with
  | nil => intro m k; simp
  | cons v votes ih =>
    intro m k
    simp only [List.foldl_cons]
    rw [ih]
    by_cases hk : v.2 = k
    · subst hk
      rw [List.countP_cons_of_pos _ _ (by simp)]
      have h1 : mapGetD (mapSet m v.2 (mapGetD m v.2 0 + 1)) v.2 0
          = mapGetD m v.2 0 + 1 := by
        unfold mapGetD
        rw [mapGet_mapSet_self]
        rfl
      rw [h1]
      omega
    · rw [List.countP_cons_of_neg _ _ (by simpa using hk)]
      have h1 : mapGetD (mapSet m v.2 (mapGetD m v.2 0 + 1)) k 0
          = mapGetD m k 0 := by
        unfold mapGetD
        rw [mapGet_mapSet_ne _ _ _ _ fun h => hk h.symm]
      rw [h1]

/-- The vote count of any key equals the number of recorded votes naming it. -/
theorem lastLashVoteCounts_getD (room : Room) (k : String) :
    mapGetD (lastLashVoteCounts room) k 0 =
      room.lastLashVotes.countP (fun v => v.2 = k) := by
  unfold lastLashVoteCounts
  rw [voteFold_getD]
  rw [mapGetD_eq_zero_of_all_zero _
    (lastLashInit_all_zero room.lastLashAnswers [] (by simp)) k]
  omega

theorem foldlMax_ge_acc (m : List (String × Nat)) :
    ∀ acc : Nat, acc ≤ m.foldl (fun mx e => if mx < e.2 then e.2 else mx) acc := by
  induction m with
  | nil => intro acc; exact Nat.le_refl acc
  | cons e m ih =>
    intro acc
    refine le_trans ?_ (ih _)
    show acc ≤ if acc < e.2 then e.2 else acc
    split_ifs with h
    · omega
    · exact Nat.le_refl acc

theorem foldlMax_ge_entry (m : List (String × Nat)) :
    ∀ (acc : Nat) (e : String × Nat), e ∈ m →
      e.2 ≤ m.foldl (fun mx e => if mx < e.2 then e.2 else mx) acc := by
  induction m with
  | nil => intro acc e he; cases he
  | cons b m ih =>
    intro acc e he
    rcases List.mem_cons.mp he with h | h
    · subst h
      refine le_trans ?_ (foldlMax_ge_acc m _)
      show e.2 ≤ if acc < e.2 then e.2 else acc
      split_ifs with hlt
      · exact Nat.le_refl _
      · omega
    · exact ih _ e h

theorem mapGetD_le_lastLashMaxVotes (room : Room) (k : String) :
    mapGetD (lastLashVoteCounts room) k 0 ≤ lastLashMaxVotes room := by
  unfold mapGetD mapGet lastLashMaxVotes
  cases hf : (lastLashVoteCounts room).find? (fun e => e.1 = k) with
  | none => exact Nat.zero_le _
  | some e =>
    have hmem : e ∈ lastLashVoteCounts room := List.mem_of_find?_eq_some hf
    simpa using foldlMax_ge_entry _ 0 e hmem

theorem scoresFold_getD_of_not_mem (answers : List LastLashAnswer) :
    ∀ (m : List (Option String × Nat)) (k : Option String),
      (∀ a ∈ answers, ¬ (some a.playerId = k)) →
      mapGetD (answers.foldl (fun m a =>
          mapSet m (some a.playerId) (mapGetD m (some a.playerId) 0 + a.points)) m)
        k 0 = mapGetD m k 0 := by
  induction answers with
  | nil => intro m k _; rfl
  | cons b answers ih =>
    intro m k hk
    simp only [List.foldl_cons]
    rw [ih _ _ (fun a ha => hk a (List.mem_cons_of_mem _ ha))]
    unfold mapGetD
    rw [mapGet_mapSet_ne _ _ _ _
      (fun h => hk b (List.mem_cons_self _ _) h.symm)]

theorem scoresFold_getD_of_mem (answers : List LastLashAnswer) :
    ∀ (m : List (Option String × Nat)) (a : LastLashAnswer),
      (answers.map (fun a => a.playerId)).Nodup → a ∈ answers →
      mapGetD (answers.foldl (fun m a =>
          mapSet m (some a.playerId) (mapGetD m (some a.playerId) 0 + a.points)) m)
        (some a.playerId) 0 = mapGetD m (some a.playerId) 0 + a.points := by
  induction answers with
  | nil => intro m a _ ha; cases ha
  | cons b answers ih =>
    intro m a hnd ha
    rw [List.map_cons] at hnd
    have hnd2 := List.nodup_cons.mp hnd
    simp only [List.foldl_cons]
    rcases List.mem_cons.mp ha with h | h
    · rw [h]
      have hnm : ∀ a2 ∈ answers, ¬ (some a2.playerId = some b.playerId) := by
        intro a2 ha2 h2
        have h3 : b.playerId ∈ answers.map (fun a => a.playerId) := by
          rw [← Option.some_inj.mp h2]
          exact List.mem_map_of_mem _ ha2
        exact hnd2.1 h3
      rw [scoresFold_getD_of_not_mem answers _ _ hnm]
      unfold mapGetD
      rw [mapGet_mapSet_self]
      rfl
    · have hne : a.playerId ≠ b.playerId := by
        intro hcontra
        have h3 : b.playerId ∈ answers.map (fun a => a.playerId) := by
          rw [← hcontra]
          exact List.mem_map_of_mem _ h
        exact hnd2.1 h3
      rw [ih _ a hnd2.2 h]
      have h1 : mapGetD (mapSet m (some b.playerId)
          (mapGetD m (some b.playerId) 0 + b.points)) (some a.playerId) 0
          = mapGetD m (some a.playerId) 0 := by
        unfold mapGetD
        rw [mapGet_mapSet_ne _ _ _ _ (by simpa using hne)]
      rw [h1]

theorem lastLashAward_spec (vc : List (String × Nat)) (mx : Nat)
    (a : LastLashAnswer) :
    (lastLashAward vc mx a).playerId = a.playerId ∧
    (lastLashAward vc mx a).answer = a.answer ∧
    (lastLashAward vc mx a).votes = mapGetD vc a.playerId 0 ∧
    (lastLashAward vc mx a).points =
      (lastLashAward vc mx a).votes * POINTS_PER_VOTE +
        (if (lastLashAward vc mx a).votes = mx ∧ 0 < (lastLashAward vc mx a).votes
         then LAST_LASH_FIRST else 0) ∧
    (lastLashAward vc mx a).isWinner = (a.isWinner ||
      decide ((lastLashAward vc mx a).votes = mx ∧
        0 < (lastLashAward vc mx a).votes)) := by
  simp only [lastLashAward]
  split_ifs with h
  · refine ⟨rfl, rfl, rfl, ?_, ?_⟩
    · exact rfl
    · show true = (a.isWinner ||
        decide (mapGetD vc a.playerId 0 = mx ∧ 0 < mapGetD vc a.playerId 0))
      rw [decide_eq_true h, Bool.or_true]
  · refine ⟨rfl, rfl, rfl, ?_, ?_⟩
    · show mapGetD vc a.playerId 0 * POINTS_PER_VOTE =
        mapGetD vc a.playerId 0 * POINTS_PER_VOTE + 0
      rw [Nat.add_zero]
    · show a.isWinner = (a.isWinner ||
        decide (mapGetD vc a.playerId 0 = mx ∧ 0 < mapGetD vc a.playerId 0))
      rw [decide_eq_false h, Bool.or_false]

/-- C7: `calculateLastLashScores` gives every finale author
`votes × POINTS_PER_VOTE`; each author whose vote count equals `maxVotes`
with `maxVotes > 0` additionally earns `LAST_LASH_FIRST` and is flagged
`isWinner` (ties included), and each author's earnings are added to their
entry in `room.scores`. -/
theorem calculateLastLashScores_spec (room : Room)
    (hnd : (room.lastLashAnswers.map (fun a => a.playerId)).Nodup) :
    ∀ i a, room.lastLashAnswers.get? i = some a →
      ∃ a1, (calculateLastLashScores room).lastLashAnswers.get? i = some a1 ∧
        a1.playerId = a.playerId ∧ a1.answer = a.answer ∧
        a1.votes = room.lastLashVotes.countP (fun v => v.2 = a.playerId) ∧
        a1.votes ≤ lastLashMaxVotes room ∧
        a1.points = a1.votes * POINTS_PER_VOTE +
          (if a1.votes = lastLashMaxVotes room ∧ 0 < a1.votes
           then LAST_LASH_FIRST else 0) ∧
        a1.isWinner = (a.isWinner ||
          decide (a1.votes = lastLashMaxVotes room ∧ 0 < a1.votes)) ∧
        mapGetD (calculateLastLashScores room).scores (some a.playerId) 0 =
          mapGetD room.scores (some a.playerId) 0 + a1.points := by
  intro i a hga
  obtain ⟨hpid, hans, hvotes, hpts, hwin⟩ :=
    lastLashAward_spec (lastLashVoteCounts room) (lastLashMaxVotes room) a
  refine ⟨lastLashAward (lastLashVoteCounts room) (lastLashMaxVotes room) a,
    ?_, hpid, hans, ?_, ?_, hpts, hwin, ?_⟩
  · show (room.lastLashAnswers.map _).get? i = _
    rw [List.get?_map, hga]
    rfl
  · rw [hvotes, lastLashVoteCounts_getD]
  · rw [hvotes]
    exact mapGetD_le_lastLashMaxVotes room a.playerId
  · show mapGetD ((room.lastLashAnswers.map _).foldl _ room.scores) _ 0 = _
    have hmem : lastLashAward (lastLashVoteCounts room) (lastLashMaxVotes room) a
        ∈ room.lastLashAnswers.map
          (lastLashAward (lastLashVoteCounts room) (lastLashMaxVotes room)) :=
      List.mem_map_of_mem _ (List.get?_mem hga)
    have hnd2 : ((room.lastLashAnswers.map
        (lastLashAward (lastLashVoteCounts room) (lastLashMaxVotes room))).map
          (fun a => a.playerId)).Nodup := by
      rw [List.map_map]
      have : (fun a : LastLashAnswer => a.playerId) ∘
          lastLashAward (lastLashVoteCounts room) (lastLashMaxVotes room) =
          fun a : LastLashAnswer => a.playerId := by
        funext x
        exact (lastLashAward_spec _ _ x).1
      rw [this]
      exact hnd
    have := scoresFold_getD_of_mem _ room.scores _ hnd2 hmem
    rw [hpid] at this
    exact this

/-- Witness-style concrete check for C7 (scenario S6): placed next to the
theorem; the separate witness theorem below applies the main theorem. -/
theorem calculateLastLashScores_spec_witness :
    (∃ a1, (calculateLastLashScores s6Room).lastLashAnswers.get? 0 = some a1 ∧
      a1.playerId = "A" ∧ a1.answer = "a" ∧
      a1.votes = s6Room.lastLashVotes.countP (fun v => v.2 = "A") ∧
      a1.votes ≤ lastLashMaxVotes s6Room ∧
      a1.points = a1.votes * POINTS_PER_VOTE +
        (if a1.votes = lastLashMaxVotes s6Room ∧ 0 < a1.votes
         then LAST_LASH_FIRST else 0) ∧
      a1.isWinner = (false ||
        decide (a1.votes = lastLashMaxVotes s6Room ∧ 0 < a1.votes)) ∧
      mapGetD (calculateLastLashScores s6Room).scores (some "A") 0 =
        mapGetD s6Room.scores (some "A") 0 + a1.points) ∧
    (calculateLastLashScores s6Room).lastLashAnswers.map
        (fun a => (a.playerId, a.points, a.isWinner)) =
      [("A", 600, true), ("B", 0, false), ("C", 0, false), ("D", 0, false)] := by
  constructor
  · exact calculateLastLashScores_spec s6Room (by decide) 0
      { playerId := "A", answer := "a" } rfl
  · decide

/-! ### C6 — resume-from-pause callback (code bug in the `VOTING` arm) -/

/-- The `VOTING` arm of `getTimerCallback` always resolves to a no-op: it
reads `currentPrompt?.promptId`, but prompt objects carry the field `id`, so
the read is `undefined` and the guarded callback body never runs. -/
theorem getTimerCallback_voting_noop (room : Room) :
    getTimerCallback room .VOTING = .noop := by
  simp only [getTimerCallback]
  cases hg : room.prompts.get? room.currentMatchupIndex with
  | none => rfl
  | some p => rfl

/-- C6 (code bug): a game paused during `VOTING` resumes with a do-nothing
callback instead of one showing the current matchup's result, both when a
fresh timer is armed and when the saved remaining time is 0. -/
theorem resume_paused_in_voting_is_noop (room : Room) (r : Nat)
    (hrem : room.remainingTimeOnPause = some r)
    (hst : room.pausedInState = some .VOTING) :
    (resumeGame room).2 =
      (if 0 < r then ResumeEffect.startTimer r .noop
       else ResumeEffect.fireNow .noop) ∧
    ∀ pid, TimerAction.noop ≠ TimerAction.showMatchupResult pid := by
  constructor
  · simp only [resumeGame, hrem, hst, getTimerCallback_voting_noop]
    split_ifs <;> rfl
  · intro pid h
    cases h

/-- Witness for C6 at the concrete paused room. -/
theorem resume_paused_in_voting_is_noop_witness :
    (resumeGame pausedVotingRoom).2 =
      (if 0 < 12 then ResumeEffect.startTimer 12 .noop
       else ResumeEffect.fireNow .noop) ∧
    ∀ pid, TimerAction.noop ≠ TimerAction.showMatchupResult pid :=
  resume_paused_in_voting_is_noop pausedVotingRoom 12 rfl rfl

/-! ### C9 — the VOTE_MATCHUP payload reveals the author-to-answer mapping -/

/-- C9 (code bug): the payload built by `getNextMatchup` pairs `answer1` with
`player1Id`/`player1Name` positionally — `answer1` is exactly the answer
written by the player identified by `player1Id` — so a recipient of the
emitted fields can always recover who wrote which answer.  -/
theorem getNextMatchup_reveals_authorship (room : Room) (pr : Prompt)
    (hget : room.prompts.get? room.currentMatchupIndex = some pr) :
    ∃ m, getNextMatchup room = some m ∧
      m.player1Id = pr.player1Id ∧ m.answer1 = pr.player1Answer ∧
      m.player2Id = pr.player2Id ∧ m.answer2 = pr.player2Answer := by
  have hlt : room.currentMatchupIndex < room.prompts.length := by
    by_contra hle
    rw [List.get?_eq_none.mpr (Nat.le_of_not_lt hle)] at hget
    cases hget
  simp only [getNextMatchup, hget]
  rw [if_neg (by omega)]
  exact ⟨_, rfl, rfl, rfl, rfl, rfl⟩

/-- Witness for C9: the payload determines authorship on a concrete matchup,
and two rooms differing only in the author-answer association emit different
payloads (so the association is observable). -/
theorem getNextMatchup_reveals_authorship_witness :
    (∃ m, getNextMatchup revealRoomA = some m ∧
      m.player1Id = some "A" ∧ m.answer1 = some "x" ∧
      m.player2Id = some "B" ∧ m.answer2 = some "y") ∧
    getNextMatchup revealRoomA ≠ getNextMatchup revealRoomB := by
  constructor
  · exact getNextMatchup_reveals_authorship revealRoomA
      { id := "r1_p0", text := "t", player1Id := some "A",
        player2Id := some "B", player1Answer := some "x",
        player2Answer := some "y" } rfl
  · decide

/-! ### C8 — generateUniquePrompts -/

theorem genMainLoop_invariant (gen : Nat → String) (count : Nat) :
    ∀ (fuel : Nat) (prompts seen : List String) (cur : Nat),
      (∀ s ∈ prompts, s ∈ seen) → prompts.Nodup →
      ∃ newPs,
        (genMainLoop gen count fuel prompts seen cur).1 = prompts ++ newPs ∧
        (genMainLoop gen count fuel prompts seen cur).2.1 = seen ++ newPs ∧
        (genMainLoop gen count fuel prompts seen cur).1.Nodup ∧
        ∀ s ∈ newPs, s ∉ seen := by
  intro fuel
  induction fuel with
  | zero =>
    intro prompts seen cur _ hnd
    exact ⟨[], by simp [genMainLoop], by simp [genMainLoop],
      by simpa [genMainLoop] using hnd, by simp⟩
  | succ fuel ih =>
    intro prompts seen cur hsub hnd
    by_cases hlen : prompts.length < count
    · simp only [genMainLoop, if_pos hlen]
      by_cases hfresh : ¬ seen.contains (gen cur) ∧ ¬ prompts.contains (gen cur)
      · rw [if_pos hfresh]
        have hns : gen cur ∉ seen := by simpa using hfresh.1
        have hnp : gen cur ∉ prompts := by simpa using hfresh.2
        obtain ⟨newPs, h1, h2, h3, h4⟩ :=
          ih (prompts ++ [gen cur]) (seen ++ [gen cur]) (cur + 1)
            (by
              intro s hs
              rcases List.mem_append.mp hs with h | h
              · exact List.mem_append.mpr (Or.inl (hsub s h))
              · exact List.mem_append.mpr (Or.inr h))
            (by
              rw [List.nodup_append]
              refine ⟨hnd, List.nodup_singleton _, ?_⟩
              intro a ha hb
              have : a = gen cur := by simpa using hb
              subst this
              exact hnp ha)
        refine ⟨gen cur :: newPs, ?_, ?_, h3, ?_⟩
        · rw [h1, List.append_assoc]
          rfl
        · rw [h2, List.append_assoc]
          rfl
        · intro s hs
          rcases List.mem_cons.mp hs with h | h
          · subst h
            exact hns
          · intro hcon
            exact h4 s h (List.mem_append.mpr (Or.inl hcon))
      · rw [if_neg hfresh]
        exact ih prompts seen (cur + 1) hsub hnd
    · simp only [genMainLoop, if_neg hlen]
      exact ⟨[], by simp, by simp, by simpa using hnd, by simp⟩

/-- C8 as amended: whenever the 10·count-attempt first loop fills the batch
(in particular whenever the generator keeps producing fresh prompts), the
returned strings number exactly `count`, are pairwise distinct, avoid the
input `seen` set, and are all added to `seen`. -/
theorem generateUniquePrompts_amended (gen : Nat → String) (count : Nat)
    (seen : List String)
    (hfull : (genMainLoop gen count (count * 10) [] seen 0).1.length = count) :
    (generateUniquePrompts gen count seen).1.length = count ∧
    (generateUniquePrompts gen count seen).1.Nodup ∧
    (∀ s ∈ (generateUniquePrompts gen count seen).1, s ∉ seen) ∧
    (generateUniquePrompts gen count seen).2 =
      seen ++ (generateUniquePrompts gen count seen).1 ∧
    ∀ s ∈ (generateUniquePrompts gen count seen).1,
      s ∈ (generateUniquePrompts gen count seen).2 := by
  obtain ⟨newPs, h1, h2, h3, h4⟩ :=
    genMainLoop_invariant gen count (count * 10) [] seen 0 (by simp)
      List.nodup_nil
  have hfill : count - (genMainLoop gen count (count * 10) [] seen 0).1.length
      = 0 := by
    rw [hfull]
    omega
  have hgen : (generateUniquePrompts gen count seen).1 =
      (genMainLoop gen count (count * 10) [] seen 0).1 := by
    simp only [generateUniquePrompts]
    rw [hfill]
    rfl
  have hseen : (generateUniquePrompts gen count seen).2 =
      (genMainLoop gen count (count * 10) [] seen 0).2.1 := rfl
  rw [List.nil_append] at h1
  refine ⟨by rw [hgen, hfull], by rw [hgen]; exact h3, ?_, ?_, ?_⟩
  · intro s hs
    rw [hgen, h1] at hs
    exact h4 s hs
  · rw [hgen, hseen, h2, h1]
  · intro s hs
    rw [hgen, h1] at hs
    rw [hseen, h2]
    exact List.mem_append.mpr (Or.inr hs)

/-- C8 as stated is false: with a generator that repeats itself the fallback
loop returns duplicates, and can return strings already in `seen` without
adding anything to it. -/
theorem generateUniquePrompts_counterexample :
    (generateUniquePrompts (fun _ => "x") 2 []).1 = ["x", "x"] ∧
    ¬ (generateUniquePrompts (fun _ => "x") 2 []).1.Nodup ∧
    (generateUniquePrompts (fun _ => "x") 1 ["x"]).1 = ["x"] ∧
    ¬ (∀ s ∈ (generateUniquePrompts (fun _ => "x") 1 ["x"]).1,
        s ∉ (["x"] : List String)) := by
  exact ⟨by decide, by decide, by decide, by decide⟩

/-- Witness for the amended C8 at a generator with pairwise distinct draws. -/
theorem generateUniquePrompts_amended_witness :
    (generateUniquePrompts genW 2 []).1.length = 2 ∧
    (generateUniquePrompts genW 2 []).1.Nodup ∧
    (∀ s ∈ (generateUniquePrompts genW 2 []).1, s ∉ ([] : List String)) ∧
    (generateUniquePrompts genW 2 []).2 =
      [] ++ (generateUniquePrompts genW 2 []).1 ∧
    ∀ s ∈ (generateUniquePrompts genW 2 []).1,
      s ∈ (generateUniquePrompts genW 2 []).2 :=
  generateUniquePrompts_amended genW 2 [] (by decide)

/-! ### C5 — the vote-total bound -/

theorem mem_setAdd_self (s : List String) (x : String) : x ∈ setAdd s x := by
  unfold setAdd
  split_ifs with h
  · simpa using h
  · exact List.mem_append.mpr (Or.inr (List.mem_singleton.mpr rfl))

theorem mem_setAdd_of_mem (s : List String) (x y : String) (h : y ∈ s) :
    y ∈ setAdd s x := by
  unfold setAdd
  split_ifs
  · exact h
  · exact List.mem_append.mpr (Or.inl h)

theorem mem_updateFirst {α : Type} (p : α → Bool) (f : α → α) (l : List α) :
    ∀ y ∈ updateFirst p f l, y ∈ l ∨ ∃ x, l.find? p = some x ∧ y = f x := by
  induction l with
  | nil =>
    intro y hy
    cases hy
  | cons a l ih =>
    intro y hy
    by_cases hpa : p a = true
    · rw [updateFirst, if_pos hpa] at hy
      rcases List.mem_cons.mp hy with h | h
      · exact Or.inr ⟨a, List.find?_cons_of_pos _ hpa, h⟩
      · exact Or.inl (List.mem_cons_of_mem _ h)
    · rw [updateFirst, if_neg hpa] at hy
      rcases List.mem_cons.mp hy with h | h
      · exact Or.inl (h ▸ List.mem_cons_self _ _)
      · rcases ih y h with h2 | ⟨x, hx, hyx⟩
        · exact Or.inl (List.mem_cons_of_mem _ h2)
        · refine Or.inr ⟨x, ?_, hyx⟩
          rw [List.find?_cons_of_neg _ (by simpa using hpa)]
          exact hx

theorem countP_updateFirst_ge {α : Type} (p : α → Bool) (f : α → α)
    (q : α → Bool) (hq : ∀ a, q a = true → q (f a) = true) (l : List α) :
    l.countP q ≤ (updateFirst p f l).countP q := by
  induction l with
  | nil => exact Nat.le_refl _
  | cons a l ih =>
    by_cases hpa : p a = true
    · rw [updateFirst, if_pos hpa]
      by_cases hqa : q a = true
      · rw [List.countP_cons_of_pos _ _ hqa,
          List.countP_cons_of_pos _ _ (hq a hqa)]
      · rw [List.countP_cons_of_neg _ _ (by simpa using hqa)]
        by_cases hqfa : q (f a) = true
        · rw [List.countP_cons_of_pos _ _ hqfa]
          omega
        · rw [List.countP_cons_of_neg _ _ (by simpa using hqfa)]
    · rw [updateFirst, if_neg hpa]
      by_cases hqa : q a = true
      · rw [List.countP_cons_of_pos _ _ hqa, List.countP_cons_of_pos _ _ hqa]
        omega
      · rw [List.countP_cons_of_neg _ _ (by simpa using hqa),
          List.countP_cons_of_neg _ _ (by simpa using hqa)]
        exact ih

theorem countP_updateFirst_succ {α : Type} (p : α → Bool) (f : α → α)
    (q : α → Bool) (x : α) :
    ∀ l : List α, l.find? p = some x → q x = false → q (f x) = true →
      l.countP q + 1 ≤ (updateFirst p f l).countP q := by
  intro l
  induction l with
  | nil =>
    intro hfind
    cases hfind
  | cons a l ih =>
    intro hfind hqx hqfx
    by_cases hpa : p a = true
    · rw [List.find?_cons_of_pos _ hpa] at hfind
      injection hfind with hax
      subst hax
      rw [updateFirst, if_pos hpa, List.countP_cons_of_pos _ _ hqfx,
        List.countP_cons_of_neg _ _ (by simpa using hqx)]
    · rw [List.find?_cons_of_neg _ (by simpa using hpa)] at hfind
      rw [updateFirst, if_neg hpa]
      have := ih hfind hqx hqfx
      by_cases hqa : q a = true
      · rw [List.countP_cons_of_pos _ _ hqa, List.countP_cons_of_pos _ _ hqa]
        omega
      · rw [List.countP_cons_of_neg _ _ (by simpa using hqa),
          List.countP_cons_of_neg _ _ (by simpa using hqa)]
        omega

theorem two_le_countP {α : Type} (q : α → Bool) (a b : α) :
    ∀ l : List α, a ∈ l → b ∈ l → a ≠ b → q a = true → q b = true →
      2 ≤ l.countP q := by
  intro l
  induction l with
  | nil =>
    intro ha
    cases ha
  | cons x l ih =>
    intro ha hb hab hqa hqb
    rcases List.mem_cons.mp ha with hax | hax
    · have hbl : b ∈ l := by
        rcases List.mem_cons.mp hb with h | h
        · exact absurd (h.trans hax.symm) (fun h2 => hab h2.symm)
        · exact h
      rw [← hax, List.countP_cons_of_pos _ _ hqa]
      have hpos : 0 < l.countP q := List.countP_pos_iff.mpr ⟨b, hbl, hqb⟩
      omega
    · rcases List.mem_cons.mp hb with hbx | hbx
      · rw [← hbx, List.countP_cons_of_pos _ _ hqb]
        have hpos : 0 < l.countP q := List.countP_pos_iff.mpr ⟨a, hax, hqa⟩
        omega
      · have h2 := ih hax hbx hab hqa hqb
        by_cases hqx : q x = true
        · rw [List.countP_cons_of_pos _ _ hqx]
          omega
        · rw [List.countP_cons_of_neg _ _ (by simpa using hqx)]
          omega

/-- One successful vote by a current player preserves the strengthened
invariant. -/
theorem voteInvariant_step (room : Room) (voterId promptId : String)
    (bump : Prompt → Prompt)
    (hbumpVotes : ∀ q : Prompt, (bump q).player1Votes + (bump q).player2Votes
      = q.player1Votes + q.player2Votes + 1)
    (hbumpId : ∀ q : Prompt, (bump q).id = q.id)
    (hbump1 : ∀ q : Prompt, (bump q).player1Id = q.player1Id)
    (hbump2 : ∀ q : Prompt, (bump q).player2Id = q.player2Id)
    (pr : Prompt) (v : Player)
    (hfind : room.prompts.find? (fun p => p.id = promptId) = some pr)
    (hown : ¬ (pr.player1Id = some voterId ∨ pr.player2Id = some voterId))
    (hv : room.players.find? (fun p => p.id = voterId) = some v)
    (hnv : promptId ∉ v.hasVoted)
    (hinv : voteInvariant room) :
    voteInvariant { room with
      prompts := updateFirst (fun p => p.id = promptId) bump room.prompts,
      players := updateFirst (fun p => p.id = voterId)
        (fun p => { p with hasVoted := setAdd p.hasVoted promptId })
        room.players } := by
  have hpid : pr.id = promptId := by simpa using List.find?_some hfind
  have hvid : v.id = voterId := by simpa using List.find?_some hv
  have h12 := not_or.mp hown
  intro pr1 hpr1
  rcases mem_updateFirst _ _ _ pr1 hpr1 with hmem | ⟨x, hx, hpr1eq⟩
  · -- an untouched prompt: the vote total is unchanged and the counted set
    -- can only grow
    refine le_trans (hinv pr1 hmem) (countP_updateFirst_ge _ _ _ ?_ _)
    intro a ha
    unfold eligibleVoted isAuthor at ha ⊢
    simp only [Bool.and_eq_true, Bool.not_eq_true', Bool.or_eq_false_iff,
      beq_eq_false_iff_ne, ne_eq] at ha ⊢
    refine ⟨ha.1, ?_⟩
    have := ha.2
    simpa using mem_setAdd_of_mem _ promptId _ (by simpa using this)
  · -- the voted-on prompt: +1 vote, and the voter newly enters the counted set
    rw [hx] at hfind
    injection hfind with hxpr
    have hprx := hxpr.symm
    subst hprx
    subst hpr1eq
    rw [hbumpVotes]
    have hcong : ∀ a ∈ updateFirst (fun p => p.id = voterId)
        (fun p => { p with hasVoted := setAdd p.hasVoted promptId })
        room.players,
        eligibleVoted (bump pr) a = true ↔ eligibleVoted pr a = true := by
      intro a _
      unfold eligibleVoted isAuthor
      rw [hbumpId, hbump1, hbump2]
    rw [List.countP_congr hcong]
    have hqx : eligibleVoted pr v = false := by
      unfold eligibleVoted
      rw [hpid]
      have hc : v.hasVoted.contains promptId = false := by
        simpa using hnv
      rw [hc]
      exact Bool.and_false _
    have hqfx : eligibleVoted pr
        ({ v with hasVoted := setAdd v.hasVoted promptId }) = true := by
      unfold eligibleVoted isAuthor
      simp only [Bool.and_eq_true, Bool.not_eq_true', Bool.or_eq_false_iff,
        beq_eq_false_iff_ne, ne_eq]
      refine ⟨⟨?_, ?_⟩, ?_⟩
      · show ¬ pr.player1Id = some v.id
        rw [hvid]
        exact h12.1
      · show ¬ pr.player2Id = some v.id
        rw [hvid]
        exact h12.2
      · show (setAdd v.hasVoted promptId).contains pr.id = true
        rw [hpid]
        simpa using mem_setAdd_self v.hasVoted promptId
    have hsucc := countP_updateFirst_succ (fun p => p.id = voterId)
      (fun p => { p with hasVoted := setAdd p.hasVoted promptId })
      (eligibleVoted pr) v room.players hv hqx hqfx
    have h0 := hinv pr (List.mem_of_find?_eq_some hx)
    omega

/-- C5 as amended: the bound `p1Votes + p2Votes ≤ |players| − 2` follows from
the strengthened invariant for any matchup whose two authors are distinct
current players, and `submitVote` preserves the strengthened invariant when
the voter is a current player.  (`removePlayer` does **not** preserve it —
see the counterexample.) -/
theorem voteInvariant_amended :
    (∀ (room : Room) (voterId promptId : String) (c : Int) (pr : Prompt)
      (v : Player),
      room.prompts.find? (fun p => p.id = promptId) = some pr →
      ¬ (pr.player1Id = some voterId ∨ pr.player2Id = some voterId) →
      room.players.find? (fun p => p.id = voterId) = some v →
      promptId ∉ v.hasVoted →
      (c = 1 ∨ c = 2) →
      voteInvariant room →
      voteInvariant (submitVote room voterId promptId c).2) ∧
    (∀ (room : Room) (pr : Prompt),
      voteInvariant room → pr ∈ room.prompts →
      (∃ pa ∈ room.players, some pa.id = pr.player1Id) →
      (∃ pb ∈ room.players, some pb.id = pr.player2Id) →
      pr.player1Id ≠ pr.player2Id →
      pr.player1Votes + pr.player2Votes ≤ room.players.length - 2) := by
  constructor
  · intro room voterId promptId c pr v hfind hown hv hnv hc hinv
    have hcont : v.hasVoted.contains promptId = false := by
      simpa using hnv
    rcases hc with hc | hc <;> subst hc
    · simp only [submitVote, hfind, if_neg hown, hv, Option.map_some',
        Option.getD_some, hcont, Bool.false_eq_true, if_false, markVoted]
      norm_num
      exact voteInvariant_step room voterId promptId
        (fun p => { p with player1Votes := p.player1Votes + 1 })
        (fun q => by
          show q.player1Votes + 1 + q.player2Votes = _
          omega)
        (fun q => rfl) (fun q => rfl) (fun q => rfl)
        pr v hfind hown hv hnv hinv
    · simp only [submitVote, hfind, if_neg hown, hv, Option.map_some',
        Option.getD_some, hcont, Bool.false_eq_true, if_false, markVoted]
      norm_num
      exact voteInvariant_step room voterId promptId
        (fun p => { p with player2Votes := p.player2Votes + 1 })
        (fun q => by
          show q.player1Votes + (q.player2Votes + 1) = _
          omega)
        (fun q => rfl) (fun q => rfl) (fun q => rfl)
        pr v hfind hown hv hnv hinv
  · rintro room pr hinv hmem ⟨pa, hpa, hpaid⟩ ⟨pb, hpb, hpbid⟩ hneq
    have h0 := hinv pr hmem
    have h1 : room.players.countP (eligibleVoted pr) ≤
        room.players.countP (fun p => !isAuthor pr p) := by
      refine List.countP_mono_left ?_
      intro x _ h
      have h2 : (!isAuthor pr x) = true ∧ x.hasVoted.contains pr.id = true := by
        simpa [eligibleVoted] using h
      exact h2.1
    have h2 := List.length_eq_countP_add_countP
      (p := fun p => isAuthor pr p) (l := room.players)
    have h2eq : room.players.countP (fun a => ¬ isAuthor pr a) =
        room.players.countP (fun p => !isAuthor pr p) := by
      refine List.countP_congr ?_
      intro a _
      by_cases h : isAuthor pr a = true <;> simp [h]
    have h3 : 2 ≤ room.players.countP (fun p => isAuthor pr p) := by
      have hab : pa ≠ pb := by
        intro hcontra
        apply hneq
        rw [← hpaid, ← hpbid, hcontra]
      refine two_le_countP _ pa pb room.players hpa hpb hab ?_ ?_
      · unfold isAuthor
        simp [← hpaid]
      · unfold isAuthor
        simp [← hpbid]
    omega

/-- C5 as stated is false: after the two eligible voters vote (total 2 =
|players| − 2), kicking voter `C` leaves the counters untouched while
shrinking the roster, so the total exceeds |players| − 2. -/
theorem removePlayer_vote_bound_counterexample :
    (submitVote kickRoom "C" "r1_p0" 1).1 = .success ∧
    (submitVote (submitVote kickRoom "C" "r1_p0" 1).2 "D" "r1_p0" 1).1
      = .success ∧
    ∃ pr,
      (removePlayer (submitVote (submitVote kickRoom "C" "r1_p0" 1).2
          "D" "r1_p0" 1).2 "C").1.prompts.find? (fun p => p.id = "r1_p0")
        = some pr ∧
      (removePlayer (submitVote (submitVote kickRoom "C" "r1_p0" 1).2
          "D" "r1_p0" 1).2 "C").1.players.length = 3 ∧
      pr.player1Votes + pr.player2Votes = 2 ∧
      ¬ (pr.player1Votes + pr.player2Votes ≤
        (removePlayer (submitVote (submitVote kickRoom "C" "r1_p0" 1).2
          "D" "r1_p0" 1).2 "C").1.players.length - 2) := by
  exact ⟨by decide, by decide,
    ⟨{ votePrompt with player1Votes := 2 }, by decide, by decide, by decide,
      by decide⟩⟩

/-- Witness for the amended C5: one concrete preserved step, and the bound at
a concrete reachable state. -/
theorem voteInvariant_amended_witness :
    voteInvariant (submitVote kickRoom "C" "r1_p0" 1).2 ∧
    votePrompt.player1Votes + votePrompt.player2Votes ≤
      kickRoom.players.length - 2 := by
  constructor
  · exact voteInvariant_amended.1 kickRoom "C" "r1_p0" 1 votePrompt
      { id := "C", name := "Cara" } (by decide) (by decide) (by decide)
      (by decide) (Or.inl rfl) (by unfold voteInvariant; decide)
  · exact voteInvariant_amended.2 kickRoom votePrompt
      (by unfold voteInvariant; decide) (by decide)
      ⟨{ id := "A", name := "Alice" }, by decide, by decide⟩
      ⟨{ id := "B", name := "Bob" }, by decide, by decide⟩ (by decide)

/-! ### C3 — list lemmas for the pairing algorithm -/

theorem cons_set_perm {α : Type} :
    ∀ (t : List α) (m : Nat) (a y : α), t.get? m = some y →
      (y :: t.set m a).Perm (a :: t) := by
  intro t
  induction t with
  | nil =>
    intro m a y h
    cases h
  | cons b t ih =>
    intro m a y h
    cases m with
    | zero =>
      rw [List.get?_cons_zero] at h
      injection h with h
      subst h
      rw [List.set_cons_zero]
      exact List.Perm.swap a b t
    | succ m =>
      rw [List.get?_cons_succ] at h
      rw [List.set_cons_succ]
      exact ((List.Perm.swap b y _).trans ((ih m a y h).cons b)).trans
        (List.Perm.swap a b t)

theorem set_set_perm {α : Type} :
    ∀ (l : List α) (i j : Nat) (x y : α), l.get? i = some x →
      l.get? j = some y → ((l.set i y).set j x).Perm l := by
  intro l
  induction l with
  | nil =>
    intro i j x y hi
    cases hi
  | cons a t ih =>
    intro i j x y hi hj
    cases i with
    | zero =>
      rw [List.get?_cons_zero] at hi
      injection hi with hi
      subst hi
      cases j with
      | zero =>
        rw [List.get?_cons_zero] at hj
        injection hj with hj
        subst hj
        rw [List.set_cons_zero, List.set_cons_zero]
      | succ j =>
        rw [List.get?_cons_succ] at hj
        rw [List.set_cons_zero, List.set_cons_succ]
        exact cons_set_perm t j a y hj
    | succ i =>
      rw [List.get?_cons_succ] at hi
      cases j with
      | zero =>
        rw [List.get?_cons_zero] at hj
        injection hj with hj
        subst hj
        rw [List.set_cons_succ, List.set_cons_zero]
        exact cons_set_perm t i a x hi
      | succ j =>
        rw [List.get?_cons_succ] at hj
        rw [List.set_cons_succ, List.set_cons_succ]
        exact List.Perm.cons a (ih i j x y hi hj)

theorem listSwap_perm {α : Type} (l : List α) (i j : Nat) :
    (listSwap l i j).Perm l := by
  unfold listSwap
  cases hx : l.get? i with
  | none =>
    cases hy : l.get? j <;> exact List.Perm.refl l
  | some x =>
    cases hy : l.get? j with
    | none => exact List.Perm.refl l
    | some y => exact set_set_perm l i j x y hx hy

theorem fyLoop_perm {α : Type} (o : Nat → Nat) :
    ∀ (fuel k : Nat) (l : List α), ((fyLoop o k fuel l).1).Perm l := by
  intro fuel
  induction fuel with
  | zero =>
    intro k l
    exact List.Perm.refl l
  | succ i ih =>
    intro k l
    exact (ih (k + 1) (listSwap l (i + 1) (o k % (i + 2)))).trans
      (listSwap_perm l (i + 1) (o k % (i + 2)))

theorem jsShuffle_perm {α : Type} (o : Nat → Nat) (k : Nat) (l : List α) :
    ((jsShuffle o k l).1).Perm l :=
  fyLoop_perm o (l.length - 1) k l

theorem sortByNeedDesc_perm (needs : List (String × Nat)) (l : List Player) :
    (sortByNeedDesc needs l).Perm l :=
  List.perm_insertionSort _ l

theorem sortByNeedDesc_head_max (needs : List (String × Nat))
    (l : List Player) (p0 : Player) (rest : List Player)
    (h : sortByNeedDesc needs l = p0 :: rest) :
    ∀ q ∈ rest, needOf needs q.id ≤ needOf needs p0.id := by
  haveI : IsTotal Player (fun a b => needOf needs b.id ≤ needOf needs a.id) :=
    ⟨fun a b => Nat.le_total (needOf needs b.id) (needOf needs a.id)⟩
  haveI : IsTrans Player (fun a b => needOf needs b.id ≤ needOf needs a.id) :=
    ⟨fun _ _ _ hab hbc => Nat.le_trans hbc hab⟩
  have hs := List.sorted_insertionSort
    (fun a b => needOf needs b.id ≤ needOf needs a.id) l
  rw [show List.insertionSort
      (fun a b => needOf needs b.id ≤ needOf needs a.id) l =
      sortByNeedDesc needs l from rfl, h] at hs
  exact (List.sorted_cons.mp hs).1

theorem find?_updateFirst_ne {α : Type} (p q : α → Bool) (g : α → α)
    (l : List α) (h : ∀ x ∈ l, p x = true → q x = false ∧ q (g x) = false) :
    (updateFirst p g l).find? q = l.find? q := by
  induction l with
  | nil => rfl
  | cons a t ih =>
    by_cases hpa : p a = true
    · obtain ⟨hqa, hqga⟩ := h a (List.mem_cons_self a t) hpa
      simp only [updateFirst]
      rw [if_pos hpa, List.find?_cons_of_neg _ (by simp [hqga]),
        List.find?_cons_of_neg _ (by simp [hqa])]
    · simp only [updateFirst]
      rw [if_neg hpa]
      by_cases hqa : q a = true
      · rw [List.find?_cons_of_pos _ hqa, List.find?_cons_of_pos _ hqa]
      · rw [List.find?_cons_of_neg _ (by simpa using hqa),
          List.find?_cons_of_neg _ (by simpa using hqa)]
        exact ih (fun x hx => h x (List.mem_cons_of_mem a hx))

theorem map_updateFirst {α β : Type} (f : α → β) (p : α → Bool) (g : α → α)
    (hg : ∀ a, f (g a) = f a) (l : List α) :
    (updateFirst p g l).map f = l.map f := by
  induction l with
  | nil => rfl
  | cons a t ih =>
    by_cases hpa : p a = true
    · simp only [updateFirst]
      rw [if_pos hpa, List.map_cons, List.map_cons, hg]
    · simp only [updateFirst]
      rw [if_neg hpa, List.map_cons, List.map_cons, ih]

theorem find?_self_of_nodup (l : List Player)
    (hnd : (l.map Player.id).Nodup) (p : Player) (hp : p ∈ l) :
    l.find? (fun q => q.id = p.id) = some p := by
  induction l with
  | nil => cases hp
  | cons a t ih =>
    rw [List.map_cons] at hnd
    obtain ⟨ha, hnd'⟩ := List.nodup_cons.mp hnd
    rcases List.mem_cons.mp hp with hpa | hpt
    · subst hpa
      exact List.find?_cons_of_pos _ (by simp)
    · have hne : ¬ a.id = p.id := by
        intro he
        exact ha (he ▸ List.mem_map.mpr ⟨p, hpt, rfl⟩)
      rw [List.find?_cons_of_neg _ (by simpa using hne)]
      exact ih hnd' hpt

theorem find?_id_mem (l : List Player) (i : String)
    (hi : i ∈ l.map Player.id) :
    ∃ p, l.find? (fun q => q.id = i) = some p ∧ p.id = i := by
  cases hfind : l.find? (fun q => q.id = i) with
  | none =>
    exfalso
    obtain ⟨p, hp, hpi⟩ := List.mem_map.mp hi
    have := List.find?_eq_none.mp hfind p hp
    simp [hpi] at this
  | some p =>
    exact ⟨p, rfl, by simpa using List.find?_some hfind⟩

theorem sum_map_update (ids : List String) (hnd : ids.Nodup)
    (f f2 : String → Nat) (i : String) (hi : i ∈ ids)
    (hoth : ∀ j ∈ ids, j ≠ i → f2 j = f j) :
    (ids.map f2).sum + f i = (ids.map f).sum + f2 i := by
  induction ids with
  | nil => cases hi
  | cons a t ih =>
    obtain ⟨ha, hnd'⟩ := List.nodup_cons.mp hnd
    rcases List.mem_cons.mp hi with hia | hit
    · subst hia
      have hmap : t.map f2 = t.map f := by
        refine List.map_congr_left (fun j hj => ?_)
        exact hoth j (List.mem_cons_of_mem i hj)
          (fun he => ha (he ▸ hj))
      rw [List.map_cons, List.map_cons, hmap, List.sum_cons, List.sum_cons]
      omega
    · have hne : a ≠ i := fun he => ha (he ▸ hit)
      have hfa : f2 a = f a := hoth a (List.mem_cons_self a t) hne
      have := ih hnd' hit (fun j hj hji =>
        hoth j (List.mem_cons_of_mem a hj) hji)
      rw [List.map_cons, List.map_cons, List.sum_cons, List.sum_cons, hfa]
      omega

theorem sum_map_two_update (ids : List String) (hnd : ids.Nodup)
    (f f2 : String → Nat) (i1 i2 : String) (hi1 : i1 ∈ ids) (hi2 : i2 ∈ ids)
    (hne : i1 ≠ i2)
    (hoth : ∀ j ∈ ids, j ≠ i1 → j ≠ i2 → f2 j = f j) :
    (ids.map f2).sum + f i1 + f i2 = (ids.map f).sum + f2 i1 + f2 i2 := by
  induction ids with
  | nil => cases hi1
  | cons a t ih =>
    obtain ⟨ha, hnd'⟩ := List.nodup_cons.mp hnd
    by_cases h1 : a = i1
    · have hit2 : i2 ∈ t := by
        rcases List.mem_cons.mp hi2 with h | h
        · exact absurd (h.trans h1).symm hne
        · exact h
      have hone := sum_map_update t hnd' f f2 i2 hit2 (fun j hj hji =>
        hoth j (List.mem_cons_of_mem a hj)
          (fun he => ha ((he.trans h1.symm) ▸ hj)) hji)
      rw [List.map_cons, List.map_cons, List.sum_cons, List.sum_cons, h1]
      omega
    · by_cases h2 : a = i2
      · have hit1 : i1 ∈ t := by
          rcases List.mem_cons.mp hi1 with h | h
          · exact absurd (h.trans h2) hne
          · exact h
        have hone := sum_map_update t hnd' f f2 i1 hit1 (fun j hj hji =>
          hoth j (List.mem_cons_of_mem a hj) hji
            (fun he => ha ((he.trans h2.symm) ▸ hj)))
        rw [List.map_cons, List.map_cons, List.sum_cons, List.sum_cons, h2]
        omega
      · have hit1 : i1 ∈ t := by
          rcases List.mem_cons.mp hi1 with h | h
          · exact absurd h.symm h1
          · exact h
        have hit2 : i2 ∈ t := by
          rcases List.mem_cons.mp hi2 with h | h
          · exact absurd h.symm h2
          · exact h
        have hfa : f2 a = f a := hoth a (List.mem_cons_self a t)
          (fun he => h1 he) (fun he => h2 he)
        have := ih hnd' hit1 hit2 (fun j hj hj1 hj2 =>
          hoth j (List.mem_cons_of_mem a hj) hj1 hj2)
        rw [List.map_cons, List.map_cons, List.sum_cons, List.sum_cons, hfa]
        omega

theorem sum_le_countP_pos (l : List Nat) (h : ∀ y ∈ l, y ≤ 1) :
    l.sum ≤ l.countP (fun x => decide (0 < x)) := by
  induction l with
  | nil => simp
  | cons x t ih =>
    have hx := h x (List.mem_cons_self x t)
    have hih := ih (fun y hy => h y (List.mem_cons_of_mem x hy))
    by_cases hp : 0 < x
    · rw [List.sum_cons, List.countP_cons_of_pos _ _ (by simpa using hp)]
      omega
    · rw [List.sum_cons, List.countP_cons_of_neg _ _ (by simpa using hp)]
      omega

theorem two_le_countP_pos (l : List Nat) (hlen : 2 ≤ l.length)
    (hsum : 2 ≤ l.sum) (hsp : ∀ x ∈ l, ∀ y ∈ l, x ≤ y + 1) :
    2 ≤ l.countP (fun x => decide (0 < x)) := by
  by_contra hc
  push_neg at hc
  have hsplit := List.length_eq_countP_add_countP
    (fun x => decide (0 < x)) (l := l)
  have hzc : 0 < l.countP (fun x => ¬ decide (0 < x)) := by omega
  obtain ⟨z, hz, hzp⟩ := List.countP_pos_iff.mp hzc
  have hz0 : z = 0 := by
    simp only [decide_eq_true_eq] at hzp
    omega
  have hall : ∀ y ∈ l, y ≤ 1 := by
    intro y hy
    have := hsp y hy z hz
    omega
  have := sum_le_countP_pos l hall
  omega

theorem needOf_mapSet_self (m : List (String × Nat)) (k : String) (v : Nat) :
    needOf (mapSet m k v) k = v := by
  unfold needOf mapGetD
  rw [mapGet_mapSet_self]
  rfl

theorem needOf_mapSet_ne (m : List (String × Nat)) (k k2 : String) (v : Nat)
    (h : k2 ≠ k) : needOf (mapSet m k v) k2 = needOf m k2 := by
  unfold needOf mapGetD
  rw [mapGet_mapSet_ne _ _ _ _ h]

theorem ids_pushAssigned (players : List Player) (pid promptId : String) :
    (pushAssigned players pid promptId).map Player.id =
      players.map Player.id := by
  unfold pushAssigned
  apply map_updateFirst
  intro a
  rfl

theorem find?_pushAssigned_self (players : List Player)
    (pid promptId : String) (x : Player)
    (hx : players.find? (fun q => q.id = pid) = some x) :
    (pushAssigned players pid promptId).find? (fun q => q.id = pid) =
      some { x with promptsAssigned := x.promptsAssigned ++ [promptId] } := by
  apply find?_updateFirst_of_find?_eq_some _ _ _ _ hx
  simpa using List.find?_some hx

theorem find?_pushAssigned_ne (players : List Player)
    (pid promptId i : String) (hne : i ≠ pid) :
    (pushAssigned players pid promptId).find? (fun q => q.id = i) =
      players.find? (fun q => q.id = i) := by
  apply find?_updateFirst_ne
  intro x hx hpx
  have hxid : x.id = pid := by simpa using hpx
  exact ⟨decide_eq_false (fun h => hne (h.symm.trans hxid)),
    decide_eq_false (fun h => hne (h.symm.trans hxid))⟩

theorem assignNormal_players_ids (st : AssignState) (pr : Prompt)
    (p1 p2 : Player) (k : Nat) :
    (assignNormal st pr p1 p2 k).players.map Player.id =
      st.players.map Player.id := by
  show (pushAssigned (pushAssigned st.players p1.id pr.id) p2.id
      pr.id).map Player.id = st.players.map Player.id
  rw [ids_pushAssigned, ids_pushAssigned]

theorem assignNormal_prompts (st : AssignState) (pr : Prompt)
    (p1 p2 : Player) (k : Nat) :
    (assignNormal st pr p1 p2 k).prompts = st.prompts ++
      [{ pr with player1Id := some p1.id, player2Id := some p2.id }] := rfl

theorem assignNormal_NEED_p1 (st : AssignState) (pr : Prompt)
    (p1 p2 : Player) (k : Nat) (hne : p1.id ≠ p2.id) :
    NEEDf (assignNormal st pr p1 p2 k) p1.id = NEEDf st p1.id - 1 := by
  show needOf (mapSet (mapSet st.needs p1.id (needOf st.needs p1.id - 1))
      p2.id _) p1.id = _
  rw [needOf_mapSet_ne _ _ _ _ hne, needOf_mapSet_self]
  rfl

theorem assignNormal_NEED_p2 (st : AssignState) (pr : Prompt)
    (p1 p2 : Player) (k : Nat) (hne : p1.id ≠ p2.id) :
    NEEDf (assignNormal st pr p1 p2 k) p2.id = NEEDf st p2.id - 1 := by
  show needOf (mapSet (mapSet st.needs p1.id (needOf st.needs p1.id - 1))
      p2.id (needOf (mapSet st.needs p1.id (needOf st.needs p1.id - 1))
        p2.id - 1)) p2.id = _
  rw [needOf_mapSet_self,
    needOf_mapSet_ne _ _ _ _ (fun h => hne h.symm)]
  rfl

theorem assignNormal_NEED_other (st : AssignState) (pr : Prompt)
    (p1 p2 : Player) (k : Nat) (i : String) (h1 : i ≠ p1.id)
    (h2 : i ≠ p2.id) :
    NEEDf (assignNormal st pr p1 p2 k) i = NEEDf st i := by
  show needOf (mapSet (mapSet st.needs p1.id (needOf st.needs p1.id - 1))
      p2.id _) i = _
  rw [needOf_mapSet_ne _ _ _ _ h2, needOf_mapSet_ne _ _ _ _ h1]
  rfl

theorem assignNormal_ASSIGNED_p1 (st : AssignState) (pr : Prompt)
    (p1 p2 : Player) (k : Nat) (hne : p1.id ≠ p2.id)
    (h1 : p1.id ∈ st.players.map Player.id) :
    ASSIGNEDf (assignNormal st pr p1 p2 k) p1.id =
      ASSIGNEDf st p1.id + 1 := by
  obtain ⟨x, hx, hxid⟩ := find?_id_mem st.players p1.id h1
  show ((((pushAssigned (pushAssigned st.players p1.id pr.id) p2.id
      pr.id).find? (fun p => p.id = p1.id)).map
        (fun p => p.promptsAssigned.length)).getD 0) = _
  rw [find?_pushAssigned_ne _ _ _ _ hne,
    find?_pushAssigned_self _ _ _ x hx]
  simp [ASSIGNEDf, hx]

theorem assignNormal_ASSIGNED_p2 (st : AssignState) (pr : Prompt)
    (p1 p2 : Player) (k : Nat) (hne : p1.id ≠ p2.id)
    (h2 : p2.id ∈ st.players.map Player.id) :
    ASSIGNEDf (assignNormal st pr p1 p2 k) p2.id =
      ASSIGNEDf st p2.id + 1 := by
  obtain ⟨x, hx, hxid⟩ := find?_id_mem st.players p2.id h2
  have hx2 : (pushAssigned st.players p1.id pr.id).find?
      (fun q => q.id = p2.id) = some x := by
    rw [find?_pushAssigned_ne _ _ _ _ (fun h => hne h.symm)]
    exact hx
  show ((((pushAssigned (pushAssigned st.players p1.id pr.id) p2.id
      pr.id).find? (fun p => p.id = p2.id)).map
        (fun p => p.promptsAssigned.length)).getD 0) = _
  rw [find?_pushAssigned_self _ _ _ x hx2]
  simp [ASSIGNEDf, hx]

theorem assignNormal_ASSIGNED_other (st : AssignState) (pr : Prompt)
    (p1 p2 : Player) (k : Nat) (i : String) (h1 : i ≠ p1.id)
    (h2 : i ≠ p2.id) :
    ASSIGNEDf (assignNormal st pr p1 p2 k) i = ASSIGNEDf st i := by
  show ((((pushAssigned (pushAssigned st.players p1.id pr.id) p2.id
      pr.id).find? (fun p => p.id = i)).map
        (fun p => p.promptsAssigned.length)).getD 0) = _
  rw [find?_pushAssigned_ne _ _ _ _ h2, find?_pushAssigned_ne _ _ _ _ h1]
  rfl

theorem assignStep_branches (o : Nat → Nat) (st : AssignState) (pr : Prompt)
    (hnd : (st.players.map Player.id).Nodup) (hP2 : 2 ≤ st.players.length)
    (hsum2 : 2 ≤ sumNeed st)
    (hsp : ∀ i ∈ st.players.map Player.id, ∀ j ∈ st.players.map Player.id,
      NEEDf st j ≤ NEEDf st i + 1) :
    ∃ (p1 p2 : Player) (k : Nat),
      assignStep o st pr = assignNormal st pr p1 p2 k ∧
      p1 ∈ st.players ∧ p2 ∈ st.players ∧ p1.id ≠ p2.id ∧
      0 < NEEDf st p1.id ∧ 0 < NEEDf st p2.id ∧
      (∀ i ∈ st.players.map Player.id, NEEDf st i ≤ NEEDf st p1.id) ∧
      (NEEDf st p2.id = NEEDf st p1.id ∨
        ∀ i ∈ st.players.map Player.id, i ≠ p1.id →
          NEEDf st i + 1 ≤ NEEDf st p1.id) := by
  have hndP : st.players.Nodup := hnd.of_map
  have hinj : ∀ x ∈ st.players, ∀ y ∈ st.players, x.id = y.id → x = y :=
    fun x hx y hy => List.inj_on_of_nodup_map hnd hx hy
  have hcount : 2 ≤ st.players.countP
      (fun p => decide (0 < needOf st.needs p.id)) := by
    have h2 := two_le_countP_pos ((st.players.map Player.id).map (NEEDf st))
      (by simpa using hP2) hsum2 ?_
    · rw [List.countP_map, List.countP_map] at h2
      exact h2
    · intro x hx y hy
      obtain ⟨i, hi, hxi⟩ := List.mem_map.mp hx
      obtain ⟨j, hj, hyj⟩ := List.mem_map.mp hy
      subst hxi
      subst hyj
      exact hsp j hj i hi
  have hlenF : 2 ≤ (st.players.filter
      (fun p => 0 < needOf st.needs p.id)).length := by
    rw [← List.countP_eq_length_filter]
    exact hcount
  have hperm := sortByNeedDesc_perm st.needs
    (st.players.filter (fun p => 0 < needOf st.needs p.id))
  have hndF : (st.players.filter
      (fun p => 0 < needOf st.needs p.id)).Nodup := hndP.filter _
  have hndA : (sortByNeedDesc st.needs (st.players.filter
      (fun p => 0 < needOf st.needs p.id))).Nodup :=
    hperm.nodup_iff.mpr hndF
  have hlenA : 2 ≤ (sortByNeedDesc st.needs (st.players.filter
      (fun p => 0 < needOf st.needs p.id))).length := by
    rw [hperm.length_eq]
    exact hlenF
  have hmemA : ∀ q ∈ sortByNeedDesc st.needs (st.players.filter
      (fun p => 0 < needOf st.needs p.id)),
      q ∈ st.players ∧ 0 < needOf st.needs q.id := by
    intro q hq
    have hqf := hperm.subset hq
    have := List.mem_filter.mp hqf
    exact ⟨this.1, by simpa using this.2⟩
  cases havail : sortByNeedDesc st.needs (st.players.filter
      (fun p => 0 < needOf st.needs p.id)) with
  | nil =>
    rw [havail] at hlenA
    simp at hlenA
  | cons p0 rest =>
    rw [havail] at hndA hlenA hmemA
    have hhead := sortByNeedDesc_head_max st.needs _ p0 rest havail
    obtain ⟨hp0P, hp0pos⟩ := hmemA p0 (List.mem_cons_self p0 rest)
    have hmaxA : ∀ q ∈ p0 :: rest,
        needOf st.needs q.id ≤ needOf st.needs p0.id := by
      intro q hq
      rcases List.mem_cons.mp hq with h | h
      · rw [h]
      · exact hhead q h
    have hmaxAll : ∀ i ∈ st.players.map Player.id,
        needOf st.needs i ≤ needOf st.needs p0.id := by
      intro i hi
      obtain ⟨pi, hpi, hpidi⟩ := List.mem_map.mp hi
      by_cases h0 : 0 < needOf st.needs i
      · have hpiF : pi ∈ st.players.filter
            (fun p => 0 < needOf st.needs p.id) :=
          List.mem_filter.mpr ⟨hpi, by simp only [hpidi]; simpa using h0⟩
        have hpiA : pi ∈ p0 :: rest := by
          rw [← havail]
          exact hperm.mem_iff.mpr hpiF
        have := hmaxA pi hpiA
        rw [hpidi] at this
        exact this
      · omega
    have hpermSh := jsShuffle_perm o st.cursor ((p0 :: rest).filter
      (fun p => needOf st.needs p.id = needOf st.needs p0.id))
    have hndMG : ((p0 :: rest).filter
        (fun p => needOf st.needs p.id = needOf st.needs p0.id)).Nodup :=
      hndA.filter _
    have hp0MG : p0 ∈ (p0 :: rest).filter
        (fun p => needOf st.needs p.id = needOf st.needs p0.id) :=
      List.mem_filter.mpr ⟨List.mem_cons_self p0 rest, by simp⟩
    have hsubMG : ∀ x ∈ (p0 :: rest).filter
        (fun p => needOf st.needs p.id = needOf st.needs p0.id),
        x ∈ p0 :: rest ∧ needOf st.needs x.id = needOf st.needs p0.id := by
      intro x hx
      have := List.mem_filter.mp hx
      exact ⟨this.1, by simpa using this.2⟩
    cases hsh : (jsShuffle o st.cursor ((p0 :: rest).filter
        (fun p => needOf st.needs p.id = needOf st.needs p0.id))).1 with
    | nil =>
      exfalso
      rw [hsh] at hpermSh
      have := hpermSh.symm.eq_nil
      rw [this] at hp0MG
      cases hp0MG
    | cons g0 gs =>
      rw [hsh] at hpermSh
      have hg0 : g0 ∈ (p0 :: rest).filter
          (fun p => needOf st.needs p.id = needOf st.needs p0.id) :=
        hpermSh.subset (List.mem_cons_self g0 gs)
      have hndSh : (g0 :: gs).Nodup := hpermSh.nodup_iff.mpr hndMG
      obtain ⟨hg0A, hg0eq⟩ := hsubMG g0 hg0
      obtain ⟨hg0P, hg0pos⟩ := hmemA g0 hg0A
      cases gs with
      | cons g1 gs' =>
        have hg1 : g1 ∈ (p0 :: rest).filter
            (fun p => needOf st.needs p.id = needOf st.needs p0.id) :=
          hpermSh.subset (List.mem_cons_of_mem g0
            (List.mem_cons_self g1 gs'))
        obtain ⟨hg1A, hg1eq⟩ := hsubMG g1 hg1
        obtain ⟨hg1P, hg1pos⟩ := hmemA g1 hg1A
        have hg01 : g0 ≠ g1 := fun h =>
          (List.nodup_cons.mp hndSh).1 (h ▸ List.mem_cons_self g1 gs')
        have hneX : g0.id ≠ g1.id := fun h => hg01 (hinj g0 hg0P g1 hg1P h)
        refine ⟨g0, g1, (jsShuffle o st.cursor ((p0 :: rest).filter
          (fun p => needOf st.needs p.id = needOf st.needs p0.id))).2,
          ?_, hg0P, hg1P, hneX, hg0pos, hg1pos, ?_, Or.inl ?_⟩
        · simp only [assignStep, havail]
          rw [if_pos hlenA, hsh]
        · intro i hi
          have h1 := hmaxAll i hi
          simp only [NEEDf]
          omega
        · simp only [NEEDf]
          omega
      | nil =>
        have hMGall : ∀ x ∈ (p0 :: rest).filter
            (fun p => needOf st.needs p.id = needOf st.needs p0.id),
            x = g0 := by
          intro x hx
          have hlen1 : ((p0 :: rest).filter
              (fun p => needOf st.needs p.id =
                needOf st.needs p0.id)).length = 1 := by
            rw [← hpermSh.length_eq]
            rfl
          obtain ⟨a, ha⟩ := List.length_eq_one.mp hlen1
          rw [ha] at hx hg0
          have hx' := List.mem_singleton.mp hx
          have hg' := List.mem_singleton.mp hg0
          rw [hx', hg']
        have hpermSh2 := jsShuffle_perm o (jsShuffle o st.cursor
          ((p0 :: rest).filter (fun p => needOf st.needs p.id =
            needOf st.needs p0.id))).2
          ((p0 :: rest).filter (fun p => ¬ p.id = g0.id))
        cases hsh2 : (jsShuffle o (jsShuffle o st.cursor
            ((p0 :: rest).filter (fun p => needOf st.needs p.id =
              needOf st.needs p0.id))).2
            ((p0 :: rest).filter (fun p => ¬ p.id = g0.id))).1 with
        | nil =>
          exfalso
          rw [hsh2] at hpermSh2
          have hoe := hpermSh2.symm.eq_nil
          have hall : ∀ x ∈ p0 :: rest, x.id = g0.id := by
            intro x hx
            have := List.filter_eq_nil.mp hoe x hx
            simpa using this
          cases rest with
          | nil => simp at hlenA
          | cons r1 rs =>
            have hpr : p0 = r1 := by
              apply hinj p0 hp0P r1
                (hmemA r1 (List.mem_cons_of_mem p0
                  (List.mem_cons_self r1 rs))).1
              rw [hall p0 (List.mem_cons_self p0 _),
                hall r1 (List.mem_cons_of_mem p0 (List.mem_cons_self r1 rs))]
            exact (List.nodup_cons.mp hndA).1
              (hpr ▸ List.mem_cons_self r1 rs)
        | cons q qs =>
          rw [hsh2] at hpermSh2
          have hqo : q ∈ (p0 :: rest).filter (fun p => ¬ p.id = g0.id) :=
            hpermSh2.subset (List.mem_cons_self q qs)
          have hqmem := List.mem_filter.mp hqo
          have hqA : q ∈ p0 :: rest := hqmem.1
          have hqne : ¬ q.id = g0.id := by simpa using hqmem.2
          obtain ⟨hqP, hqpos⟩ := hmemA q hqA
          have hneY : g0.id ≠ q.id := fun h => hqne h.symm
          have hdichR : ∀ i ∈ st.players.map Player.id, i ≠ g0.id →
              NEEDf st i + 1 ≤ NEEDf st g0.id := by
            intro i hi hine
            by_cases h0 : 0 < needOf st.needs i
            · obtain ⟨pi, hpi, hpidi⟩ := List.mem_map.mp hi
              have hpiF : pi ∈ st.players.filter
                  (fun p => 0 < needOf st.needs p.id) :=
                List.mem_filter.mpr ⟨hpi, by rw [hpidi]; simpa using h0⟩
              have hpiA : pi ∈ p0 :: rest := by
                rw [← havail]
                exact hperm.mem_iff.mpr hpiF
              have hpiMG : pi ∉ (p0 :: rest).filter
                  (fun p => needOf st.needs p.id = needOf st.needs p0.id) :=
                fun hmem => hine (hpidi ▸ congrArg Player.id (hMGall pi hmem))
              have hpineq : ¬ needOf st.needs pi.id = needOf st.needs p0.id :=
                fun he => hpiMG (List.mem_filter.mpr ⟨hpiA, by simpa using he⟩)
              have hle := hmaxA pi hpiA
              have h2 : needOf st.needs g0.id = needOf st.needs p0.id := hg0eq
              simp only [NEEDf]
              rw [← hpidi]
              omega
            · simp only [NEEDf]
              have : 0 < needOf st.needs g0.id := hg0pos
              omega
          refine ⟨g0, q, (jsShuffle o (jsShuffle o st.cursor
            ((p0 :: rest).filter (fun p => needOf st.needs p.id =
              needOf st.needs p0.id))).2
            ((p0 :: rest).filter (fun p => ¬ p.id = g0.id))).2,
            ?_, hg0P, hqP, hneY, hg0pos, hqpos, ?_, Or.inr hdichR⟩
          · simp only [assignStep, havail]
            rw [if_pos hlenA, hsh]
            simp only []
            rw [hsh2]
          · intro i hi
            have h1 := hmaxAll i hi
            simp only [NEEDf]
            omega

theorem assignStep_spec (o : Nat → Nat) (K : Nat) (st : AssignState)
    (pr : Prompt) (hnd : (st.players.map Player.id).Nodup)
    (hP2 : 2 ≤ st.players.length)
    (hsp : ∀ i ∈ st.players.map Player.id, ∀ j ∈ st.players.map Player.id,
      NEEDf st j ≤ NEEDf st i + 1)
    (hphi : ∀ i ∈ st.players.map Player.id, ASSIGNEDf st i + NEEDf st i = K)
    (hsum2 : 2 ≤ sumNeed st) :
    (assignStep o st pr).players.map Player.id = st.players.map Player.id ∧
    (∀ i ∈ st.players.map Player.id, ∀ j ∈ st.players.map Player.id,
      NEEDf (assignStep o st pr) j ≤ NEEDf (assignStep o st pr) i + 1) ∧
    (∀ i ∈ st.players.map Player.id,
      ASSIGNEDf (assignStep o st pr) i + NEEDf (assignStep o st pr) i = K) ∧
    sumNeed (assignStep o st pr) + 2 = sumNeed st ∧
    sumAssigned (assignStep o st pr) = sumAssigned st + 2 ∧
    (∃ a b : String, a ≠ b ∧ (assignStep o st pr).prompts =
      st.prompts ++ [{ pr with player1Id := some a, player2Id := some b }]) := by
  obtain ⟨p1, p2, k, heq, hm1, hm2, hne, hpos1, hpos2, hmax, hdich⟩ :=
    assignStep_branches o st pr hnd hP2 hsum2 hsp
  have hid1 : p1.id ∈ st.players.map Player.id :=
    List.mem_map.mpr ⟨p1, hm1, rfl⟩
  have hid2 : p2.id ∈ st.players.map Player.id :=
    List.mem_map.mpr ⟨p2, hm2, rfl⟩
  have hN1 := assignNormal_NEED_p1 st pr p1 p2 k hne
  have hN2 := assignNormal_NEED_p2 st pr p1 p2 k hne
  have hNo := fun i h1 h2 => assignNormal_NEED_other st pr p1 p2 k i h1 h2
  have hA1 := assignNormal_ASSIGNED_p1 st pr p1 p2 k hne hid1
  have hA2 := assignNormal_ASSIGNED_p2 st pr p1 p2 k hne hid2
  have hAo := fun i h1 h2 => assignNormal_ASSIGNED_other st pr p1 p2 k i h1 h2
  have hids := assignNormal_players_ids st pr p1 p2 k
  have hlow : ∀ x ∈ st.players.map Player.id,
      NEEDf st p1.id ≤ NEEDf st x + 1 := fun x hx => hsp x hx p1.id hid1
  rw [heq]
  refine ⟨hids, ?_, ?_, ?_, ?_, p1.id, p2.id, hne,
    assignNormal_prompts st pr p1 p2 k⟩
  · rcases hdich with hd | hd
    · have hbound : ∀ x ∈ st.players.map Player.id,
          NEEDf st p1.id - 1 ≤ NEEDf (assignNormal st pr p1 p2 k) x ∧
          NEEDf (assignNormal st pr p1 p2 k) x ≤ NEEDf st p1.id := by
        intro x hx
        by_cases c1 : x = p1.id
        · rw [c1, hN1]
          omega
        · by_cases c2 : x = p2.id
          · rw [c2, hN2]
            omega
          · rw [hNo x c1 c2]
            have h1 := hmax x hx
            have h2 := hlow x hx
            omega
      intro i hi j hj
      have bi := hbound i hi
      have bj := hbound j hj
      omega
    · have hbound : ∀ x ∈ st.players.map Player.id,
          NEEDf st p1.id - 2 ≤ NEEDf (assignNormal st pr p1 p2 k) x ∧
          NEEDf (assignNormal st pr p1 p2 k) x ≤ NEEDf st p1.id - 1 := by
        intro x hx
        by_cases c1 : x = p1.id
        · rw [c1, hN1]
          omega
        · by_cases c2 : x = p2.id
          · rw [c2, hN2]
            have h1 := hd p2.id hid2 (fun h => hne h.symm)
            have h2 := hlow p2.id hid2
            omega
          · rw [hNo x c1 c2]
            have h1 := hd x hx c1
            have h2 := hlow x hx
            omega
      intro i hi j hj
      have bi := hbound i hi
      have bj := hbound j hj
      omega
  · intro i hi
    by_cases c1 : i = p1.id
    · rw [c1, hA1, hN1]
      have := hphi p1.id hid1
      omega
    · by_cases c2 : i = p2.id
      · rw [c2, hA2, hN2]
        have := hphi p2.id hid2
        omega
      · rw [hAo i c1 c2, hNo i c1 c2]
        exact hphi i hi
  · show sumNeed (assignNormal st pr p1 p2 k) + 2 = sumNeed st
    unfold sumNeed
    rw [hids]
    have h2u := sum_map_two_update (st.players.map Player.id) hnd
      (NEEDf st) (NEEDf (assignNormal st pr p1 p2 k)) p1.id p2.id hid1 hid2
      hne (fun j _ hj1 hj2 => hNo j hj1 hj2)
    rw [hN1, hN2] at h2u
    omega
  · show sumAssigned (assignNormal st pr p1 p2 k) = sumAssigned st + 2
    unfold sumAssigned
    rw [hids]
    have h2u := sum_map_two_update (st.players.map Player.id) hnd
      (ASSIGNEDf st) (ASSIGNEDf (assignNormal st pr p1 p2 k)) p1.id p2.id
      hid1 hid2 hne (fun j _ hj1 hj2 => hAo j hj1 hj2)
    rw [hA1, hA2] at h2u
    omega

theorem natSum_eq_zero_mem (l : List Nat) (h : l.sum = 0) :
    ∀ x ∈ l, x = 0 := by
  induction l with
  | nil =>
    intro x hx
    cases hx
  | cons a t iht =>
    rw [List.sum_cons] at h
    intro x hx
    rcases List.mem_cons.mp hx with hxa | hxt
    · omega
    · exact iht (by omega) x hxt

theorem assignLoop_spec (o : Nat → Nat) (K : Nat) :
    ∀ (l : List Prompt) (st : AssignState),
    (st.players.map Player.id).Nodup →
    2 ≤ st.players.length →
    (∀ i ∈ st.players.map Player.id, ∀ j ∈ st.players.map Player.id,
      NEEDf st j ≤ NEEDf st i + 1) →
    (∀ i ∈ st.players.map Player.id, ASSIGNEDf st i + NEEDf st i = K) →
    sumNeed st = 2 * l.length →
    (l.foldl (assignStep o) st).players.map Player.id =
      st.players.map Player.id ∧
    (∀ i ∈ st.players.map Player.id,
      ASSIGNEDf (l.foldl (assignStep o) st) i = K) ∧
    (l.foldl (assignStep o) st).prompts.length =
      st.prompts.length + l.length ∧
    (∀ pr ∈ (l.foldl (assignStep o) st).prompts, pr ∈ st.prompts ∨
      ∃ a b : String, a ≠ b ∧ pr.player1Id = some a ∧
        pr.player2Id = some b) := by
  intro l
  induction l with
  | nil =>
    intro st hnd hP2 hsp hphi hsum
    refine ⟨rfl, ?_, by simp, fun pr hpr => Or.inl hpr⟩
    intro i hi
    have hz : NEEDf st i = 0 := by
      have hmem : NEEDf st i ∈ (st.players.map Player.id).map (NEEDf st) :=
        List.mem_map_of_mem (NEEDf st) hi
      have hs0 : sumNeed st = 0 := by
        rw [hsum]
        rfl
      exact natSum_eq_zero_mem _ hs0 _ hmem
    have := hphi i hi
    simp only [List.foldl_nil]
    omega
  | cons pr t ih =>
    intro st hnd hP2 hsp hphi hsum
    have hsum2 : 2 ≤ sumNeed st := by
      rw [hsum, List.length_cons]
      omega
    obtain ⟨hids1, hsp1, hphi1, hsum1, _hsa1, a, b, hab, hpr1⟩ :=
      assignStep_spec o K st pr hnd hP2 hsp hphi hsum2
    have hnd1 : ((assignStep o st pr).players.map Player.id).Nodup := by
      rw [hids1]
      exact hnd
    have hP21 : 2 ≤ (assignStep o st pr).players.length := by
      have hl : (assignStep o st pr).players.length = st.players.length := by
        rw [← List.length_map (assignStep o st pr).players Player.id, hids1,
          List.length_map]
      omega
    have hsp1' : ∀ i ∈ (assignStep o st pr).players.map Player.id,
        ∀ j ∈ (assignStep o st pr).players.map Player.id,
        NEEDf (assignStep o st pr) j ≤ NEEDf (assignStep o st pr) i + 1 := by
      rw [hids1]
      exact hsp1
    have hphi1' : ∀ i ∈ (assignStep o st pr).players.map Player.id,
        ASSIGNEDf (assignStep o st pr) i + NEEDf (assignStep o st pr) i =
          K := by
      rw [hids1]
      exact hphi1
    have hsum1' : sumNeed (assignStep o st pr) = 2 * t.length := by
      rw [hsum, List.length_cons] at hsum1
      omega
    obtain ⟨ih_ids, ih_assign, ih_len, ih_prompts⟩ :=
      ih (assignStep o st pr) hnd1 hP21 hsp1' hphi1' hsum1'
    rw [List.foldl_cons]
    refine ⟨ih_ids.trans hids1, ?_, ?_, ?_⟩
    · intro i hi
      apply ih_assign
      rw [hids1]
      exact hi
    · rw [ih_len, hpr1, List.length_append, List.length_cons]
      simp
      omega
    · intro pr' hpr'
      rcases ih_prompts pr' hpr' with h | h
      · rw [hpr1] at h
        rcases List.mem_append.mp h with h2 | h2
        · exact Or.inl h2
        · have he := List.mem_singleton.mp h2
          exact Or.inr ⟨a, b, hab, by rw [he], by rw [he]⟩
      · exact Or.inr h

theorem needOf_foldl_untouched (K : Nat) :
    ∀ (ps : List Player) (m : List (String × Nat)) (i : String),
    i ∉ ps.map Player.id →
    needOf (ps.foldl (fun m p => mapSet m p.id K) m) i = needOf m i := by
  intro ps
  induction ps with
  | nil =>
    intro m i _
    rfl
  | cons p t ihp =>
    intro m i hi
    rw [List.map_cons] at hi
    have h1 : i ∉ t.map Player.id := fun h =>
      hi (List.mem_cons_of_mem _ h)
    have h2 : i ≠ p.id := fun h => hi (h ▸ List.mem_cons_self _ _)
    rw [List.foldl_cons, ihp (mapSet m p.id K) i h1,
      needOf_mapSet_ne _ _ _ _ h2]

theorem needOf_foldl_init (K : Nat) :
    ∀ (ps : List Player) (m : List (String × Nat)) (i : String),
    i ∈ ps.map Player.id →
    needOf (ps.foldl (fun m p => mapSet m p.id K) m) i = K := by
  intro ps
  induction ps with
  | nil =>
    intro m i hi
    cases hi
  | cons p t ihp =>
    intro m i hi
    rw [List.foldl_cons]
    by_cases hit : i ∈ t.map Player.id
    · exact ihp (mapSet m p.id K) i hit
    · have hip : i = p.id := by
        rw [List.map_cons] at hi
        rcases List.mem_cons.mp hi with h | h
        · exact h
        · exact absurd h hit
      rw [needOf_foldl_untouched K t (mapSet m p.id K) i hit, hip,
        needOf_mapSet_self]

theorem sum_map_eq_of_const {α : Type} (l : List α) (f : α → Nat) (c : Nat)
    (h : ∀ x ∈ l, f x = c) : (l.map f).sum = l.length * c := by
  induction l with
  | nil => simp
  | cons x t ihl =>
    rw [List.map_cons, List.sum_cons, List.length_cons,
      h x (List.mem_cons_self x t),
      ihl (fun y hy => h y (List.mem_cons_of_mem x hy))]
    ring

theorem assignPrompts_total (o : Nat → Nat) (room : Room)
    (promptTexts : List String) (K : Nat)
    (hnd : (room.players.map Player.id).Nodup)
    (hP2 : 2 ≤ room.players.length)
    (hlen : room.players.length * K = 2 * promptTexts.length) :
    (∀ pr ∈ (assignPromptsToPlayersWithTexts o room promptTexts K).prompts,
      ∃ a b : String, a ≠ b ∧ pr.player1Id = some a ∧
        pr.player2Id = some b) ∧
    (∀ p ∈ (assignPromptsToPlayersWithTexts o room promptTexts K).players,
      p.promptsAssigned.length = K) ∧
    (assignPromptsToPlayersWithTexts o room promptTexts K).prompts.length =
      promptTexts.length ∧
    (assignPromptsToPlayersWithTexts o room promptTexts K).players.length =
      room.players.length := by
  have hids0 : ((room.players.map resetPlayer).map Player.id) =
      room.players.map Player.id := by
    rw [List.map_map]
    exact List.map_congr_left (fun p _ => rfl)
  have hnd0 : ((initAssignState room K).players.map Player.id).Nodup := by
    show ((room.players.map resetPlayer).map Player.id).Nodup
    rw [hids0]
    exact hnd
  have hP20 : 2 ≤ (initAssignState room K).players.length := by
    show 2 ≤ (room.players.map resetPlayer).length
    rw [List.length_map]
    exact hP2
  have hneed0 : ∀ i ∈ room.players.map Player.id,
      NEEDf (initAssignState room K) i = K := by
    intro i hi
    show needOf ((room.players.map resetPlayer).foldl
      (fun m p => mapSet m p.id K) []) i = K
    apply needOf_foldl_init
    rw [hids0]
    exact hi
  have hassigned0 : ∀ i ∈ room.players.map Player.id,
      ASSIGNEDf (initAssignState room K) i = 0 := by
    intro i hi
    have hi0 : i ∈ (room.players.map resetPlayer).map Player.id := by
      rw [hids0]
      exact hi
    obtain ⟨p, hp, hpi⟩ := find?_id_mem _ i hi0
    show (((room.players.map resetPlayer).find? (fun q => q.id = i)).map
      (fun p => p.promptsAssigned.length)).getD 0 = 0
    rw [hp]
    have hmem := List.mem_of_find?_eq_some hp
    obtain ⟨q, _, hq⟩ := List.mem_map.mp hmem
    rw [← hq]
    rfl
  have hsp0 : ∀ i ∈ (initAssignState room K).players.map Player.id,
      ∀ j ∈ (initAssignState room K).players.map Player.id,
      NEEDf (initAssignState room K) j ≤
        NEEDf (initAssignState room K) i + 1 := by
    intro i hi j hj
    have hi2 : i ∈ room.players.map Player.id := by
      rw [← hids0]
      exact hi
    have hj2 : j ∈ room.players.map Player.id := by
      rw [← hids0]
      exact hj
    rw [hneed0 i hi2, hneed0 j hj2]
    omega
  have hphi0 : ∀ i ∈ (initAssignState room K).players.map Player.id,
      ASSIGNEDf (initAssignState room K) i +
        NEEDf (initAssignState room K) i = K := by
    intro i hi
    have hi2 : i ∈ room.players.map Player.id := by
      rw [← hids0]
      exact hi
    rw [hneed0 i hi2, hassigned0 i hi2]
    omega
  have hsum0 : sumNeed (initAssignState room K) =
      2 * (mkPrompts room promptTexts).length := by
    show (((initAssignState room K).players.map Player.id).map
      (NEEDf (initAssignState room K))).sum = _
    rw [show (initAssignState room K).players =
      room.players.map resetPlayer from rfl, hids0,
      sum_map_eq_of_const _ _ K hneed0, List.length_map]
    have hmk : (mkPrompts room promptTexts).length = promptTexts.length := by
      simp [mkPrompts]
    rw [hmk]
    omega
  obtain ⟨hFids, hFassign, hFlen, hFauthors⟩ :=
    assignLoop_spec o K (mkPrompts room promptTexts)
      (initAssignState room K) hnd0 hP20 hsp0 hphi0 hsum0
  refine ⟨?_, ?_, ?_, ?_⟩
  · intro pr hpr
    rcases hFauthors pr hpr with h | h
    · simp [initAssignState] at h
    · exact h
  · intro p hp
    have hp2 : p ∈ ((mkPrompts room promptTexts).foldl (assignStep o)
      (initAssignState room K)).players := hp
    have hpid : p.id ∈ (initAssignState room K).players.map Player.id := by
      rw [← hFids]
      exact List.mem_map_of_mem Player.id hp2
    have hK := hFassign p.id hpid
    have hndF : (((mkPrompts room promptTexts).foldl (assignStep o)
        (initAssignState room K)).players.map Player.id).Nodup := by
      rw [hFids]
      exact hnd0
    have hfind := find?_self_of_nodup _ hndF p hp2
    have hlenp : ASSIGNEDf ((mkPrompts room promptTexts).foldl
        (assignStep o) (initAssignState room K)) p.id =
        p.promptsAssigned.length := by
      unfold ASSIGNEDf
      rw [hfind]
      rfl
    rw [← hlenp]
    exact hK
  · show ((mkPrompts room promptTexts).foldl (assignStep o)
      (initAssignState room K)).prompts.length = promptTexts.length
    rw [hFlen]
    show (initAssignState room K).prompts.length +
      (mkPrompts room promptTexts).length = _
    simp [initAssignState, mkPrompts]
  · show ((mkPrompts room promptTexts).foldl (assignStep o)
      (initAssignState room K)).players.length = room.players.length
    have h1 := congrArg List.length hFids
    rw [List.length_map, List.length_map] at h1
    rw [h1]
    show (room.players.map resetPlayer).length = _
    rw [List.length_map]

/-- C3: for every roster of P players (3 ≤ P ≤ 8) with distinct ids, with
K = PROMPTS_PER_PLAYER, after `assignPromptsToPlayersWithTexts` runs on
⌈P·K/2⌉ prompt texts, under every sequence of random tie-break draws: every
produced prompt carries two distinct player ids, every player has between K
and K+1 assigned prompts, at most one player has K+1, and the assignment
counts sum to twice the number of prompts. -/
theorem assignPrompts_spec (o : Nat → Nat) (room : Room)
    (promptTexts : List String)
    (hnd : (room.players.map Player.id).Nodup)
    (hP3 : 3 ≤ room.players.length) (hP8 : room.players.length ≤ 8)
    (hM : promptTexts.length =
      (room.players.length * PROMPTS_PER_PLAYER + 1) / 2) :
    (∀ pr ∈ (assignPromptsToPlayersWithTexts o room promptTexts
        PROMPTS_PER_PLAYER).prompts,
      ∃ a b : String, a ≠ b ∧ pr.player1Id = some a ∧
        pr.player2Id = some b) ∧
    (∀ p ∈ (assignPromptsToPlayersWithTexts o room promptTexts
        PROMPTS_PER_PLAYER).players,
      PROMPTS_PER_PLAYER ≤ p.promptsAssigned.length ∧
        p.promptsAssigned.length ≤ PROMPTS_PER_PLAYER + 1) ∧
    (assignPromptsToPlayersWithTexts o room promptTexts
        PROMPTS_PER_PLAYER).players.countP
      (fun p => p.promptsAssigned.length = PROMPTS_PER_PLAYER + 1) ≤ 1 ∧
    ((assignPromptsToPlayersWithTexts o room promptTexts
        PROMPTS_PER_PLAYER).players.map
      (fun p => p.promptsAssigned.length)).sum =
      2 * (assignPromptsToPlayersWithTexts o room promptTexts
        PROMPTS_PER_PLAYER).prompts.length := by
  have hK : PROMPTS_PER_PLAYER = 2 := rfl
  have hlen : room.players.length * PROMPTS_PER_PLAYER =
      2 * promptTexts.length := by
    rw [hK] at hM ⊢
    omega
  obtain ⟨ha, hb, hc, hd⟩ := assignPrompts_total o room promptTexts
    PROMPTS_PER_PLAYER hnd (by omega) hlen
  refine ⟨ha, ?_, ?_, ?_⟩
  · intro p hp
    rw [hb p hp]
    omega
  · have hz : (assignPromptsToPlayersWithTexts o room promptTexts
        PROMPTS_PER_PLAYER).players.countP
        (fun p => p.promptsAssigned.length = PROMPTS_PER_PLAYER + 1) = 0 := by
      apply List.countP_eq_zero.mpr
      intro p hp
      simp [hb p hp]
    omega
  · have hsum := sum_map_eq_of_const _ _ PROMPTS_PER_PLAYER hb
    rw [hsum, hd, hc]
    exact hlen

theorem assignPrompts_spec_witness :
    (c3Room.players.map Player.id).Nodup ∧
    3 ≤ c3Room.players.length ∧ c3Room.players.length ≤ 8 ∧
    c3Texts.length = (c3Room.players.length * PROMPTS_PER_PLAYER + 1) / 2 ∧
    ((∀ pr ∈ (assignPromptsToPlayersWithTexts (fun _ => 0) c3Room c3Texts
        PROMPTS_PER_PLAYER).prompts,
      ∃ a b : String, a ≠ b ∧ pr.player1Id = some a ∧
        pr.player2Id = some b) ∧
    (∀ p ∈ (assignPromptsToPlayersWithTexts (fun _ => 0) c3Room c3Texts
        PROMPTS_PER_PLAYER).players,
      PROMPTS_PER_PLAYER ≤ p.promptsAssigned.length ∧
        p.promptsAssigned.length ≤ PROMPTS_PER_PLAYER + 1) ∧
    (assignPromptsToPlayersWithTexts (fun _ => 0) c3Room c3Texts
        PROMPTS_PER_PLAYER).players.countP
      (fun p => p.promptsAssigned.length = PROMPTS_PER_PLAYER + 1) ≤ 1 ∧
    ((assignPromptsToPlayersWithTexts (fun _ => 0) c3Room c3Texts
        PROMPTS_PER_PLAYER).players.map
      (fun p => p.promptsAssigned.length)).sum =
      2 * (assignPromptsToPlayersWithTexts (fun _ => 0) c3Room c3Texts
        PROMPTS_PER_PLAYER).prompts.length) :=
  ⟨by decide, by decide, by decide, by decide,
    assignPrompts_spec (fun _ => 0) c3Room c3Texts (by decide) (by decide)
      (by decide) (by decide)⟩

end QuipWits
